import Mathlib

/-!
Verification of the stream-resolution cascade and download/cache manager of a
YouTube audio proxy (source modules `youtube_proxy.py` and `stream_proxy.py`).

The Python source is shallowly embedded:
* pure helpers (`extract_video_id`, `_bitrate_to_int`, `_select_stream`,
  `_audio_path`) become Lean functions over `String`/`Int`/`Nat`;
* the resolver cascade (`get_audio_stream`) and the download strategies
  (`_download_via_proxy_stream`, `_download_via_api`,
  `_download_via_ytdlp_enhanced`, `ensure_audio_file`) become functions over a
  filesystem value (a list of name/size/mtime entries) together with an
  environment record that fixes the outcome of every external interaction
  (HTTP fetches, byte downloads, the yt-dlp subprocess);
* the per-identifier locking discipline of `ensure_audio_file` becomes a
  two-caller transition system whose atomic steps are the code regions between
  `await` points of the asyncio coroutine.

Python string values are embedded as `String`, machine integers and file
times as `Int` (Python ints are unbounded), byte counts as `Nat`.
-/

namespace StreamProxyVerif

/-! ### Python string helpers

`str.strip()` (ASCII whitespace), `value[-11:]`, and the character class
`[a-zA-Z0-9_-]` of the canonical-id regular expressions in
`youtube_proxy.extract_video_id`. -/

def pyIsSpace (c : Char) : Bool :=
  c = ' ' || c = '\t' || c = '\n' || c = '\x0d' || c = '\x0b' || c = '\x0c'

/-- `str.strip()` restricted to ASCII whitespace. -/
def pyStrip (s : String) : String :=
  ⟨((s.data.dropWhile pyIsSpace).reverse.dropWhile pyIsSpace).reverse⟩

/-- Python `s[-n:]`: the last `n` characters (the whole string when shorter). -/
def strTakeRight (n : Nat) (s : String) : String :=
  ⟨s.data.drop (s.data.length - n)⟩

/-- Character-list version of `startswith` (kernel-reducible, unlike the
byte-position-based `String.startsWith`). -/
def listStartsWith : List Char → List Char → Bool
  | _, [] => true
  | [], _ :: _ => false
  | c :: cs, p :: ps => c = p && listStartsWith cs ps

/-- Python `s.startswith(pre)`. -/
def strStartsWith (s pre : String) : Bool :=
  listStartsWith s.data pre.data

/-- Python `s.endswith(suf)`. -/
def strEndsWith (s suf : String) : Bool :=
  listStartsWith s.data.reverse suf.data.reverse

/-- `str(value).lower().endswith("k")`: lowercasing touches only letters, so
this holds exactly when the last character is `k` or `K`. -/
def lowerEndsWithK (s : String) : Bool :=
  match s.data.getLast? with
  | some c => c = 'k' || c = 'K'
  | none => false

/-- The first line of a string (`splitlines()[0]` of a non-empty string). -/
def firstLine (s : String) : String :=
  ⟨s.data.takeWhile (fun c => c != '\n')⟩

/-- One character of the class `[a-zA-Z0-9_-]`. -/
def isIdChar (c : Char) : Bool :=
  c.isAlpha || c.isDigit || c = '_' || c = '-'

/-- The guard `re.match(r"^[a-zA-Z0-9_-]{11}$", value)` of
`extract_video_id`: exactly eleven characters of the id alphabet. -/
def isCanonical (s : String) : Bool :=
  s.data.length == 11 && s.data.all isIdChar

/-! ### The three search patterns of `extract_video_id`

Each pattern is a literal followed by a capture of exactly eleven id
characters; `re.search` tries every start position left to right, and the
alternation of pattern 1 tries its two branches left to right. -/

/-- Match a literal at the head of the input, returning the remainder. -/
def matchLit : List Char → List Char → Option (List Char)
  | [], rest => some rest
  | _ :: _, [] => none
  | p :: ps, c :: cs => if p = c then matchLit ps cs else none

/-- The capture group `([a-zA-Z0-9_-]{11})`: the next eleven characters,
provided they are all id characters. -/
def take11Class (s : List Char) : Option (List Char) :=
  let t := s.take 11
  if t.length = 11 && t.all isIdChar then some t else none

def watchLit : List Char := "youtube.com/watch?v=".data
def shortLit : List Char := "youtu.be/".data
def embedLit : List Char := "youtube.com/embed/".data
def vLit : List Char := "youtube.com/v/".data

/-- Pattern 1 tried at one position:
`(?:youtube\.com/watch\?v=|youtu\.be/)([a-zA-Z0-9_-]{11})`. -/
def tryPat1At (s : List Char) : Option (List Char) :=
  match matchLit watchLit s with
  | some rest => take11Class rest
  | none =>
    match matchLit shortLit s with
    | some rest => take11Class rest
    | none => none

/-- Pattern 2 tried at one position: `youtube\.com/embed/([a-zA-Z0-9_-]{11})`. -/
def tryPat2At (s : List Char) : Option (List Char) :=
  match matchLit embedLit s with
  | some rest => take11Class rest
  | none => none

/-- Pattern 3 tried at one position: `youtube\.com/v/([a-zA-Z0-9_-]{11})`. -/
def tryPat3At (s : List Char) : Option (List Char) :=
  match matchLit vLit s with
  | some rest => take11Class rest
  | none => none

/-- `re.search`: try the position matcher at every suffix, leftmost first. -/
def reSearch (tryAt : List Char → Option (List Char)) :
    List Char → Option (List Char)
  | [] => tryAt []
  | c :: cs =>
    match tryAt (c :: cs) with
    | some r => some r
    | none => reSearch tryAt cs

/-- `youtube_proxy.extract_video_id`: canonical ids pass through, the three
URL patterns are searched in order, and otherwise the last eleven characters
of the stripped input are returned. -/
def extract_video_id (value : String) : String :=
  if value = "" then value
  else
    let v := pyStrip value
    if isCanonical v then v
    else
      match reSearch tryPat1At v.data with
      | some r => ⟨r⟩
      | none =>
        match reSearch tryPat2At v.data with
        | some r => ⟨r⟩
        | none =>
          match reSearch tryPat3At v.data with
          | some r => ⟨r⟩
          | none => strTakeRight 11 v

/-- The accepted URL shapes quantified over in the normalizer claims. -/
def watchUrl (id : String) : String := "https://youtube.com/watch?v=" ++ id

def shortUrl (id : String) : String := "https://youtu.be/" ++ id

def embedUrl (id : String) : String := "https://youtube.com/embed/" ++ id

def vUrl (id : String) : String := "https://youtube.com/v/" ++ id

/-! ### Bitrate normalization (`youtube_proxy._bitrate_to_int`)

The bitrate values reaching `_bitrate_to_int` come from decoded JSON and are
either absent (`None`), integers, or strings; that universe is embedded as
`PyVal`. -/

inductive PyVal where
  | vnone
  | vint (n : Int)
  | vstr (s : String)
  deriving DecidableEq, Repr

/-- Python `str(value)` on the embedded value universe. -/
def pyStr : PyVal → String
  | .vnone => "None"
  | .vint n => toString n
  | .vstr s => s

/-- Python `int(digits)` on a list of decimal digit characters. -/
def natOfDigits (d : List Char) : Nat :=
  d.foldl (fun n c => n * 10 + (c.toNat - '0'.toNat)) 0

/-- `re.findall(r"\d+", s)`: the maximal runs of digit characters, left to
right.  The accumulator holds the (reversed) run currently being read. -/
def digitRunsAux : List Char → Option (List Char) → List (List Char)
  | [], none => []
  | [], some run => [run.reverse]
  | c :: cs, acc =>
    if c.isDigit then digitRunsAux cs (some (c :: acc.getD []))
    else
      match acc with
      | some run => run.reverse :: digitRunsAux cs none
      | none => digitRunsAux cs none

def digitRuns (s : List Char) : List (List Char) := digitRunsAux s none

/-- `youtube_proxy._bitrate_to_int`: `None` and digit-free strings map to `0`,
numeric values pass through `int(...)`, and strings contribute their first
digit run, times 1000 when the lowercased string ends in `"k"`. -/
def _bitrate_to_int (v : PyVal) : Int :=
  match v with
  | .vnone => 0
  | .vint n => n
  | .vstr s =>
    match digitRuns s.data with
    | [] => 0
    | d :: _ =>
      let number : Int := Int.ofNat (natOfDigits d)
      if lowerEndsWithK s then number * 1000 else number

/-- Modelled from the claim's words (for the refutation of claim C9): map
every value by parsing the leading digits of its string form, multiplying by
1000 when a "k" suffix is present, and yielding 0 when unparseable. -/
def claimed_bitrate_parse (v : PyVal) : Int :=
  let s := pyStr v
  let lead := s.data.takeWhile Char.isDigit
  if lead = [] then 0
  else if lowerEndsWithK s then Int.ofNat (natOfDigits lead) * 1000
  else Int.ofNat (natOfDigits lead)

/-- The amended description of `_bitrate_to_int`: `None` maps to 0, numeric
values to their integer value, and a string to the first run of digits found
anywhere in it (0 when there is none), times 1000 when the lowercased string
ends in `"k"`.  Stated with `dropWhile`/`takeWhile` so that its agreement
with the `findall`-based code embedding is a real proof obligation. -/
def bitrate_amended_parse (v : PyVal) : Int :=
  match v with
  | .vnone => 0
  | .vint n => n
  | .vstr s =>
    let run := (s.data.dropWhile (fun c => !c.isDigit)).takeWhile Char.isDigit
    if run = [] then 0
    else if lowerEndsWithK s then Int.ofNat (natOfDigits run) * 1000
    else Int.ofNat (natOfDigits run)

/-! ### Stream selection (`youtube_proxy._select_stream`)

One audio rendition out of a provider response: `url`, `bitrate`, the Piped
`mimeType` and the Invidious `type` field (named `rtype` here since `type` is
reserved). -/

structure Rendition where
  url : Option String := none
  bitrate : PyVal := .vnone
  mimeType : Option String := none
  rtype : String := ""
  deriving DecidableEq, Repr

/-- The sort key of `_select_stream`'s `sorted(...)` call. -/
def brKey (r : Rendition) : Int := _bitrate_to_int r.bitrate

/-- The ordering relation underlying `sorted(audio_streams, key=...)`. -/
def brLE (a b : Rendition) : Prop := brKey a ≤ brKey b

instance : DecidableRel brLE := fun a b =>
  inferInstanceAs (Decidable (brKey a ≤ brKey b))

instance : IsTotal Rendition brLE := ⟨fun a b => Int.le_total (brKey a) (brKey b)⟩

instance : IsTrans Rendition brLE := ⟨fun _ _ _ => Int.le_trans⟩

/-- Python's `min(l, key=g)`: the first element of `l` attaining the minimal
key (`min` never replaces the current best on a tie). -/
def pyMin {α : Type} (g : α → Nat) : List α → Option α
  | [] => none
  | x :: xs => some (xs.foldl (fun acc y => if g y < g acc then y else acc) x)

/-- `youtube_proxy._select_stream`.  Python's `sorted` is a stable sort by the
normalized bitrate and is embedded as `List.insertionSort brLE` (stable sorts
by one key agree on every input); `ordered[-1]`/`ordered[0]` become
`getLast?`/`head?`, and the `medium`/default branch is Python's `min` over
the sorted list keyed by distance to `TARGET_ABR * 1000` (`TARGET_ABR` is
environment-configured and passed here as the `target_abr` argument). -/
def _select_stream (target_abr : Int) (audio_streams : List Rendition)
    (quality : String) : Option Rendition :=
  match audio_streams with
  | [] => none
  | x :: xs =>
    let ordered := List.insertionSort brLE (x :: xs)
    if quality = "high" then ordered.getLast?
    else if quality = "low" then ordered.head?
    else
      let target := target_abr * 1000
      pyMin (fun item => (brKey item - target).natAbs) ordered

/-! ### Provider adapters and the resolver cascade (`youtube_proxy`)

Each adapter's network interaction is fixed by an environment record
(`CascadeEnv`): the JSON body an instance would return (`none` standing for
any HTTP/parse error, which the adapter catches and skips), and the
yt-dlp subprocess's exit status and stdout.  The adapter logic itself —
instance iteration, rendition filtering, stream selection, result assembly —
is embedded from the source. -/

/-- The result dict of the fetchers: `video_id`, `title`, `duration`,
`stream_url`, `bitrate`, `format`, `source`, originating instance (the
Python key `instance` is a Lean keyword, hence `inst`). -/
structure StreamResult where
  video_id : String
  title : Option String := none
  duration : Option Int := none
  stream_url : Option String := none
  bitrate : Option Int := none
  format : Option String := none
  source : String := ""
  inst : Option String := none
  quality_request : Option String := none
  fetched_at : Option Int := none
  deriving DecidableEq, Repr

/-- A decoded Piped `/streams/{id}` response body. -/
structure PipedResp where
  title : Option String := none
  duration : Option Int := none
  audioStreams : List Rendition := []
  deriving Repr

/-- A decoded Invidious `/api/v1/videos/{id}` response body. -/
structure InvResp where
  title : Option String := none
  lengthSeconds : Option Int := none
  adaptiveFormats : List Rendition := []
  deriving Repr

/-- Outcomes of every external interaction one `get_audio_stream` call can
make: per-instance response bodies (`none` = network error, non-success
status, or unparseable body — all caught and skipped by the adapter) and the
yt-dlp subprocess results. -/
structure CascadeEnv where
  pipedInstances : List String := []
  invInstances : List String := []
  pipedResp : String → Option PipedResp := fun _ => none
  invResp : String → Option InvResp := fun _ => none
  ytdRcZero : Bool := false
  ytdStdout : String := ""
  ytdInfo : Option (Option String × Option Int) := none

/-- Truthiness of `result.get("stream_url")`: present and non-empty. -/
def truthyStr : Option String → Bool
  | none => false
  | some u => u != ""

/-- Instance loop of `fetch_stream_via_piped`: first instance whose response
yields a selected audio rendition wins; errors and empty selections skip to
the next instance. -/
def fetch_piped_go (resp : String → Option PipedResp) (target_abr : Int)
    (video_id quality : String) : List String → Option StreamResult
  | [] => none
  | i :: rest =>
    match resp i with
    | none => fetch_piped_go resp target_abr video_id quality rest
    | some data =>
      match _select_stream target_abr data.audioStreams quality with
      | none => fetch_piped_go resp target_abr video_id quality rest
      | some chosen =>
        some { video_id := video_id, title := data.title,
               duration := data.duration, stream_url := chosen.url,
               bitrate := some (_bitrate_to_int chosen.bitrate),
               format := chosen.mimeType, source := "piped", inst := some i }

/-- `youtube_proxy.fetch_stream_via_piped`. -/
def fetch_stream_via_piped (env : CascadeEnv) (target_abr : Int)
    (video_id quality : String) : Option StreamResult :=
  fetch_piped_go env.pipedResp target_abr video_id quality env.pipedInstances

/-- Instance loop of `fetch_stream_via_invidious`: like Piped but renditions
come from `adaptiveFormats` filtered to `type.startswith("audio")`, the
duration from `lengthSeconds`, and the format tag from the rendition's
`type` field. -/
def fetch_inv_go (resp : String → Option InvResp) (target_abr : Int)
    (video_id quality : String) : List String → Option StreamResult
  | [] => none
  | i :: rest =>
    match resp i with
    | none => fetch_inv_go resp target_abr video_id quality rest
    | some data =>
      let audio_formats := data.adaptiveFormats.filter
        (fun fmt => strStartsWith fmt.rtype "audio")
      match _select_stream target_abr audio_formats quality with
      | none => fetch_inv_go resp target_abr video_id quality rest
      | some chosen =>
        some { video_id := video_id, title := data.title,
               duration := data.lengthSeconds, stream_url := chosen.url,
               bitrate := some (_bitrate_to_int chosen.bitrate),
               format := some chosen.rtype, source := "invidious",
               inst := some i }

/-- `youtube_proxy.fetch_stream_via_invidious`. -/
def fetch_stream_via_invidious (env : CascadeEnv) (target_abr : Int)
    (video_id quality : String) : Option StreamResult :=
  fetch_inv_go env.invResp target_abr video_id quality env.invInstances

/-- `youtube_proxy.fetch_stream_via_ytdlp`: fails on a non-zero exit status
or empty stdout, otherwise takes the first stdout line as the stream URL and
annotates title/duration from the `--dump-json` call when that succeeded. -/
def fetch_stream_via_ytdlp (env : CascadeEnv) (video_id : String) :
    Option StreamResult :=
  if env.ytdRcZero && pyStrip env.ytdStdout != "" then
    let stream_url := firstLine (pyStrip env.ytdStdout)
    let td : String × Option Int :=
      match env.ytdInfo with
      | some (t, d) => (t.getD "Unknown", d)
      | none => ("Unknown", none)
    some { video_id := video_id, title := some td.1, duration := td.2,
           stream_url := some stream_url, bitrate := none,
           format := some "yt-dlp", source := "yt-dlp" }
  else none

/-- The guard `if result and result.get("stream_url")` of the cascade loop:
a returned dict is kept only when its `stream_url` is truthy. -/
def cascadeStep (r? : Option StreamResult) : Option StreamResult :=
  match r? with
  | some r => if truthyStr r.stream_url then some r else none
  | none => none

/-- `youtube_proxy.get_audio_stream`: normalize the identifier, then try the
pipeline `[fetch_stream_via_piped, fetch_stream_via_invidious,
fetch_stream_via_ytdlp]` in order, returning the first result with a truthy
`stream_url`, stamped with `quality_request` and `fetched_at`.  The second
component records which adapters were invoked, in order. -/
def get_audio_stream (env : CascadeEnv) (target_abr : Int) (now : Int)
    (video_id quality : String) : Option StreamResult × List String :=
  let v := extract_video_id video_id
  match cascadeStep (fetch_stream_via_piped env target_abr v quality) with
  | some r =>
    (some { r with quality_request := some quality, fetched_at := some now },
     ["piped"])
  | none =>
    match cascadeStep (fetch_stream_via_invidious env target_abr v quality) with
    | some r =>
      (some { r with quality_request := some quality, fetched_at := some now },
       ["piped", "invidious"])
    | none =>
      match cascadeStep (fetch_stream_via_ytdlp env v) with
      | some r =>
        (some { r with quality_request := some quality, fetched_at := some now },
         ["piped", "invidious", "yt-dlp"])
      | none => (none, ["piped", "invidious", "yt-dlp"])

/-- Modelled from the spec (section 4.2): the adapter priority order named by
claim C3 — Frontend-A (Piped), Frontend-B (Invidious), the scraping-API
adapter, and the direct-extraction tool (yt-dlp). -/
def spec_section_4_2_order : List String :=
  ["piped", "invidious", "scraping-api", "yt-dlp"]

/-! ### The cache filesystem (`stream_proxy`)

The cache directory is the only filesystem state the download/cache manager
touches; it is embedded as a list of entries (full path, size in bytes,
mtime).  Real directories have no duplicate names; theorems that need this
take a `Nodup` hypothesis on the name list. -/

structure FEntry where
  name : String
  size : Nat
  mtime : Int
  deriving DecidableEq, Repr

abbrev FS := List FEntry

def fsLookup (fs : FS) (name : String) : Option FEntry :=
  fs.find? (fun e => e.name == name)

/-- Writing a file: overwrite an existing entry of that name, else append. -/
def fsWrite (fs : FS) (name : String) (size : Nat) (mtime : Int) : FS :=
  if fs.any (fun e => e.name == name) then
    fs.map (fun e => if e.name == name then ⟨name, size, mtime⟩ else e)
  else fs ++ [⟨name, size, mtime⟩]

/-- `Path.unlink`. -/
def fsErase (fs : FS) (name : String) : FS :=
  fs.filter (fun e => e.name != name)

/-- `Path.rename`, overwriting any existing file at the new name. -/
def fsRename (fs : FS) (old new : String) : FS :=
  (fsErase fs new).map (fun e => if e.name == old then { e with name := new } else e)

/-- `target.exists() and target.stat().st_size > 0`. -/
def existsNonEmpty (fs : FS) (name : String) : Bool :=
  match fsLookup fs name with
  | some e => e.size > 0
  | none => false

/-- `Path.suffix`: the final `"." ++ ext` component of a name, `""` when the
name has no dot.  (Cache paths here are `dir/id.fmt`; directory components
contain no dots.) -/
def pathSuffix (name : String) : String :=
  if name.data.contains '.' then
    ⟨'.' :: (name.data.reverse.takeWhile (fun c => c != '.')).reverse⟩
  else ""

/-- `stream_proxy._audio_path`: `CACHE_DIR / f"{video_id}.{AUDIO_FORMAT}"`. -/
def _audio_path (cache_dir audio_format video_id : String) : String :=
  cache_dir ++ "/" ++ video_id ++ "." ++ audio_format

/-- The configuration surface of `stream_proxy` (environment variables read
once at startup): cache directory, TTL seconds, cache audio format. -/
structure StreamConfig where
  cache_dir : String := "/tmp/audio_cache"
  cache_duration : Int := 21600
  audio_format : String := "mp3"

/-- The cache-freshness test of `ensure_audio_file`:
`target.exists() and time.time() - target.stat().st_mtime < CACHE_DURATION`. -/
def cacheFresh (fs : FS) (target : String) (now ttl : Int) : Bool :=
  match fsLookup fs target with
  | some e => now - e.mtime < ttl
  | none => false

/-! ### Download strategies (`stream_proxy`)

A single HTTP byte download (`urlopen` + `open(target,'wb')` +
`f.write(resp.read())`) has three outcomes: the request itself fails (nothing
written), the body read fails after the target file was already opened (a
truncated file of `p` bytes — `0` for a failure before any write — is left
at the target), or the full body of `n` bytes is written. -/

inductive NetWrite where
  | noWrite
  | errLeaving (p : Nat)
  | wrote (n : Nat)
  deriving DecidableEq, Repr

/-- Outcome of one download-to-`target` block followed by the
`exists() and size > 0` success check (shared shape of the Piped/Invidious
blocks of `_download_via_proxy_stream` and of the final download steps of
`_download_via_api`): returns (success, filesystem). -/
def downloadCheck (w : NetWrite) (now : Int) (target : String) (fs : FS) :
    Bool × FS :=
  match w with
  | .noWrite => (false, fs)
  | .errLeaving p => (false, fsWrite fs target p now)
  | .wrote n =>
    let fs1 := fsWrite fs target n now
    (existsNonEmpty fs1 target, fs1)

/-- One source block of `_download_via_proxy_stream`: fetch a stream dict
(`none` = fetch raised or returned `None`), require a truthy `stream_url`,
then download its bytes to the target and check the result. -/
def tryStreamSource (res : Option (Option String)) (w : NetWrite) (now : Int)
    (target : String) (fs : FS) : Bool × FS :=
  match res with
  | none => (false, fs)
  | some u =>
    if truthyStr u then downloadCheck w now target fs
    else (false, fs)

/-- External outcomes of `_download_via_ytdlp_enhanced`: subprocess exit
status, the files the tool created in the cache directory (extension and
size; the output template is `{video_id}.%(ext)s`), and whether the
extension-normalizing rename succeeds (its failure is caught and logged). -/
structure YtdlpEnv where
  rcZero : Bool := false
  created : List (String × Nat) := []
  renameOk : Bool := true
  deriving Repr

/-- Outcomes of every external interaction one `ensure_audio_file` call can
make, in the order the strategies consume them. -/
structure EnsureEnv where
  mkdirOk : Bool := true
  pipedRes : Option (Option String) := none
  pipedWrite : NetWrite := .noWrite
  invRes : Option (Option String) := none
  invWrite : NetWrite := .noWrite
  y2 : NetWrite := .noWrite
  yt1 : NetWrite := .noWrite
  ytd : YtdlpEnv := {}
  deriving Repr

/-- Events observable from one `ensure_audio_file` call: lock activity,
cache hits, strategy attempts and provider/API invocations. -/
inductive Ev where
  | lockAcquired
  | lockReleased
  | cacheHit
  | strategy (name : String)
  | provider (name : String)
  deriving DecidableEq, Repr

/-- `stream_proxy._download_via_proxy_stream`: Piped block then Invidious
block, each fetch-url-then-download-then-check; first non-empty target wins. -/
def _download_via_proxy_stream (env : EnsureEnv) (now : Int) (target : String)
    (fs : FS) : Bool × FS × List Ev :=
  let r1 := tryStreamSource env.pipedRes env.pipedWrite now target fs
  if r1.1 then (true, r1.2, [.provider "piped"])
  else
    let r2 := tryStreamSource env.invRes env.invWrite now target r1.2
    (r2.1, r2.2, [.provider "piped", .provider "invidious"])

/-- `stream_proxy._download_via_api`: the y2mate two-step conversion then the
yt1s API, each ending in a download-and-check; any failure (bad status,
missing link, exception) before the download is `NetWrite.noWrite`. -/
def _download_via_api (env : EnsureEnv) (now : Int) (target : String)
    (fs : FS) : Bool × FS × List Ev :=
  let r1 := downloadCheck env.y2 now target fs
  if r1.1 then (true, r1.2, [.provider "y2mate"])
  else
    let r2 := downloadCheck env.yt1 now target r1.2
    (r2.1, r2.2, [.provider "y2mate", .provider "yt1s"])

/-- The files `CACHE_DIR.glob(f"{video_id}.*")` returns, in filesystem
order (the real order is OS-defined; entry order stands in for it). -/
def globId (fs : FS) (cache_dir video_id : String) : List FEntry :=
  fs.filter (fun e => strStartsWith e.name (cache_dir ++ "/" ++ video_id ++ "."))

/-- `stream_proxy._download_via_ytdlp_enhanced`: run the tool (which writes
its output files into the cache directory), fail on a non-zero exit status,
then take the first globbed `{video_id}.*` file, renaming it onto the target
when its suffix differs from the configured format. -/
def _download_via_ytdlp_enhanced (cfg : StreamConfig) (ytd : YtdlpEnv)
    (now : Int) (video_id : String) (fs : FS) : Bool × FS :=
  let fs1 := ytd.created.foldl
    (fun f c => fsWrite f (_audio_path cfg.cache_dir c.1 video_id) c.2 now) fs
  if !ytd.rcZero then (false, fs1)
  else
    match globId fs1 cfg.cache_dir video_id with
    | [] => (false, fs1)
    | e :: _ =>
      let target := _audio_path cfg.cache_dir cfg.audio_format video_id
      if pathSuffix e.name != "." ++ cfg.audio_format then
        if ytd.renameOk then (true, fsRename fs1 e.name target)
        else (true, fs1)
      else (true, fs1)

/-- The value of one `ensure_audio_file` call: result (`some path` or `None`),
final filesystem, event trace. -/
structure EnsureOut where
  res : Option String
  fs : FS
  evs : List Ev
  deriving DecidableEq, Repr

/-- `stream_proxy.ensure_audio_file` (single call): create the cache dir,
normalize the identifier, pre-lock freshness check, then under the
per-identifier lock re-check and run the three strategies in order, stopping
at the first success; `async with` releases the lock on every exit path. -/
def ensure_audio_file (cfg : StreamConfig) (env : EnsureEnv) (now : Int)
    (input : String) (fs : FS) : EnsureOut :=
  if !env.mkdirOk then ⟨none, fs, []⟩
  else
    let video_id := extract_video_id input
    let target := _audio_path cfg.cache_dir cfg.audio_format video_id
    if cacheFresh fs target now cfg.cache_duration then ⟨some target, fs, [.cacheHit]⟩
    else
      -- async with lock:
      if cacheFresh fs target now cfg.cache_duration then
        ⟨some target, fs, [.lockAcquired, .cacheHit, .lockReleased]⟩
      else
        let s1 := _download_via_proxy_stream env now target fs
        let evs1 := [Ev.lockAcquired, Ev.strategy "proxy-stream"] ++ s1.2.2
        if s1.1 then ⟨some target, s1.2.1, evs1 ++ [.lockReleased]⟩
        else
          let s2 := _download_via_api env now target s1.2.1
          let evs2 := evs1 ++ [Ev.strategy "api"] ++ s2.2.2
          if s2.1 then ⟨some target, s2.2.1, evs2 ++ [.lockReleased]⟩
          else
            let s3 := _download_via_ytdlp_enhanced cfg env.ytd now video_id s2.2.1
            let evs3 := evs2 ++ [Ev.strategy "ytdlp-enhanced"]
            if s3.1 then ⟨some target, s3.2, evs3 ++ [.lockReleased]⟩
            else ⟨none, s3.2, evs3 ++ [.lockReleased]⟩

/-- The strategy names attempted during a call, in order. -/
def strategyNames (evs : List Ev) : List String :=
  evs.filterMap (fun e => match e with | .strategy n => some n | _ => none)

/-- One cycle of `stream_proxy.clear_expired_cache`: glob `*.{AUDIO_FORMAT}`
and unlink every file whose age exceeds the TTL. -/
def clear_expired_cache_cycle (cfg : StreamConfig) (now : Int) (fs : FS) : FS :=
  let g := fs.filter (fun e => strEndsWith e.name ("." ++ cfg.audio_format))
  g.foldl
    (fun f e => if now - e.mtime > cfg.cache_duration then fsErase f e.name else f)
    fs

/-! ### Concurrency: two callers of `ensure_audio_file` on one identifier

`ensure_audio_file` runs on a cooperative (asyncio) scheduler: code between
`await` points executes atomically.  For one identifier, the relevant shared
state is the cache file (its mtime), the per-identifier `asyncio.Lock`
(created by `download_locks.setdefault`, acquired by `async with`), and the
download in flight.  Each caller is in one of five phases:

* `entry` — about to run the atomic block from the function entry through the
  first freshness check, the `setdefault`, and the (non-blocking when free)
  lock acquisition;
* `waiting` — suspended in `async with lock` while the other caller holds it;
* `critical` — holding the lock, about to run the in-lock re-check;
* `downloading` — holding the lock with a download in flight (this claim
  follows the spec scenario in which download attempts succeed, so the
  in-flight download completes and writes the cache file);
* `finished` — returned, with the returned value in `res`.

The model has strictly more interleaving points than asyncio (which runs
entry + re-check + download start without suspension when the lock is free);
every real schedule is therefore one of the modeled schedules, and the
safety properties proved over all schedules cover the real ones.  The clock
ticks once per scheduler step; a cache write stamps the current time. -/

inductive Phase where
  | entry
  | waiting
  | critical
  | downloading
  | finished
  deriving DecidableEq, Repr

structure Caller where
  phase : Phase
  res : Option String
  deriving DecidableEq, Repr

structure CState where
  cache : Option Nat
  lockHeld : Bool
  ca : Caller
  cb : Caller
  now : Nat
  dls : Nat
  deriving DecidableEq, Repr

/-- `now - mtime < ttl` over the model clock. -/
def modelFresh (ttl : Nat) (cache : Option Nat) (now : Nat) : Bool :=
  match cache with
  | some m => now - m < ttl
  | none => false

/-- One atomic step of one caller, given the shared state; returns the
caller and the new shared `(cache, lockHeld, dls)`. -/
def stepOne (ttl : Nat) (tgt : String) (s : CState) (me : Caller) :
    Caller × Option Nat × Bool × Nat :=
  match me.phase with
  | .entry =>
    if modelFresh ttl s.cache s.now then
      ({ me with phase := .finished, res := some tgt }, s.cache, s.lockHeld, s.dls)
    else if s.lockHeld then
      ({ me with phase := .waiting }, s.cache, s.lockHeld, s.dls)
    else
      ({ me with phase := .critical }, s.cache, true, s.dls)
  | .waiting =>
    if s.lockHeld then (me, s.cache, s.lockHeld, s.dls)
    else ({ me with phase := .critical }, s.cache, true, s.dls)
  | .critical =>
    if modelFresh ttl s.cache s.now then
      ({ me with phase := .finished, res := some tgt }, s.cache, false, s.dls)
    else
      ({ me with phase := .downloading }, s.cache, s.lockHeld, s.dls + 1)
  | .downloading =>
    ({ me with phase := .finished, res := some tgt }, some s.now, false, s.dls)
  | .finished => (me, s.cache, s.lockHeld, s.dls)

/-- One scheduler step: `true` runs caller A, `false` runs caller B; the
clock always advances. -/
def doStep (ttl : Nat) (tgt : String) (s : CState) (who : Bool) : CState :=
  if who then
    let r := stepOne ttl tgt s s.ca
    { cache := r.2.1, lockHeld := r.2.2.1, ca := r.1, cb := s.cb,
      now := s.now + 1, dls := r.2.2.2 }
  else
    let r := stepOne ttl tgt s s.cb
    { cache := r.2.1, lockHeld := r.2.2.1, ca := s.ca, cb := r.1,
      now := s.now + 1, dls := r.2.2.2 }

def runSched (ttl : Nat) (tgt : String) (sched : List Bool) (s : CState) : CState :=
  sched.foldl (doStep ttl tgt) s

/-- Both callers at the function entry, never-before-seen identifier: no
cache file, lock free, no download attempted. -/
def initState : CState :=
  { cache := none, lockHeld := false, ca := ⟨.entry, none⟩, cb := ⟨.entry, none⟩,
    now := 0, dls := 0 }

/-! ### Lemmas about `digitRuns` -/

lemma digitRunsAux_some_head (cs : List Char) (run : List Char) :
    (digitRunsAux cs (some run)).head? =
      some (run.reverse ++ cs.takeWhile Char.isDigit) := by
  induction cs generalizing run with
  | nil => simp [digitRunsAux]
  | cons c cs ih =>
    by_cases hc : c.isDigit
    · simp only [digitRunsAux, hc, if_pos, Option.getD_some]
      rw [ih (c :: run)]
      simp [List.takeWhile_cons, hc]
    · simp [digitRunsAux, hc, List.takeWhile_cons]

lemma digitRuns_head (s : List Char) :
    (digitRuns s).head? =
      (if (s.dropWhile (fun c => !c.isDigit)).takeWhile Char.isDigit = [] then none
       else some ((s.dropWhile (fun c => !c.isDigit)).takeWhile Char.isDigit)) := by
  induction s with
  | nil => simp [digitRuns, digitRunsAux]
  | cons c cs ih =>
    by_cases hc : c.isDigit
    · simp only [digitRuns, digitRunsAux, hc, if_pos, Option.getD_none]
      rw [digitRunsAux_some_head cs [c]]
      simp [List.dropWhile_cons, List.takeWhile_cons, hc]
    · simp only [digitRuns, digitRunsAux, hc] at ih ⊢
      rw [if_neg (by simp [hc])]
      simpa [List.dropWhile_cons, hc] using ih

/-- Claim C9, as stated, is false: for a numeric bitrate the code returns
`int(value)` without consulting the string form at all, so the negative
integer `-5` maps to `-5`, while parsing the leading digits of its string
form `"-5"` (which has none) yields `0`; likewise the string `"ab12"`, which
has no leading digits, maps to `12` (its first digit run) rather than `0`. -/
theorem bitrate_parse_counterexample :
    _bitrate_to_int (.vint (-5)) = -5 ∧ claimed_bitrate_parse (.vint (-5)) = 0 ∧
    _bitrate_to_int (.vstr "ab12") = 12 ∧ claimed_bitrate_parse (.vstr "ab12") = 0 ∧
    ¬ (∀ v, _bitrate_to_int v = claimed_bitrate_parse v) := by
  refine ⟨by decide, by decide, by decide, by decide, fun h => ?_⟩
  have h5 := h (.vint (-5))
  rw [show _bitrate_to_int (.vint (-5)) = -5 from by decide,
      show claimed_bitrate_parse (.vint (-5)) = 0 from by decide] at h5
  exact absurd h5 (by decide)

/-- Claim C9 amended: `_bitrate_to_int` maps `None` to 0, numeric values to
their integer value unchanged, and a string to the first run of digits found
anywhere in it (0 when it has none), multiplied by 1000 when the lowercased
string ends with `"k"`. -/
theorem bitrate_to_int_amended :
    ∀ v, _bitrate_to_int v = bitrate_amended_parse v := by
  intro v
  cases v with
  | vnone => rfl
  | vint n => rfl
  | vstr s =>
    have h := digitRuns_head s.data
    simp only [_bitrate_to_int, bitrate_amended_parse]
    by_cases hrun : (s.data.dropWhile (fun c => !c.isDigit)).takeWhile Char.isDigit = []
    · rw [if_pos hrun] at h
      rcases hd : digitRuns s.data with _ | ⟨d, rest⟩
      · rw [if_pos hrun]
      · rw [hd] at h; simp at h
    · rw [if_neg hrun] at h
      rcases hd : digitRuns s.data with _ | ⟨d, rest⟩
      · rw [hd] at h; simp at h
      · rw [hd] at h
        simp only [List.head?_cons, Option.some.injEq] at h
        rw [if_neg hrun, ← h]

/-! ### The cache janitor -/

lemma mem_fold_erase (ttl now : Int) (g : FS) :
    ∀ (acc : FS) (x : FEntry),
      (x ∈ g.foldl
        (fun f e => if now - e.mtime > ttl then fsErase f e.name else f) acc) ↔
      (x ∈ acc ∧ ∀ e ∈ g, now - e.mtime > ttl → e.name ≠ x.name) := by
  induction g with
  | nil => intro acc x; simp
  | cons e g ih =>
    intro acc x
    by_cases he : now - e.mtime > ttl
    · rw [List.foldl_cons, if_pos he, ih]
      constructor
      · rintro ⟨hx, hall⟩
        have hxmem : x ∈ acc ∧ ¬x.name = e.name := by
          simpa [fsErase, List.mem_filter] using hx
        refine ⟨hxmem.1, fun e' he' hst => ?_⟩
        rcases List.mem_cons.mp he' with rfl | h'
        · exact fun hEq => hxmem.2 hEq.symm
        · exact hall e' h' hst
      · rintro ⟨hx, hall⟩
        refine ⟨?_, fun e' he' hst => hall e' (List.mem_cons_of_mem _ he') hst⟩
        have hne : e.name ≠ x.name := hall e (List.mem_cons_self _ _) he
        simp only [fsErase, List.mem_filter, hx, true_and, bne_iff_ne, ne_eq]
        exact fun hEq => hne hEq.symm
    · rw [List.foldl_cons, if_neg he, ih]
      constructor
      · rintro ⟨hx, hall⟩
        refine ⟨hx, fun e' he' hst => ?_⟩
        rcases List.mem_cons.mp he' with rfl | h'
        · exact absurd hst he
        · exact hall e' h' hst
      · rintro ⟨hx, hall⟩
        exact ⟨hx, fun e' he' hst => hall e' (List.mem_cons_of_mem _ he') hst⟩

/-- Membership after one janitor cycle, for a directory without duplicate
names: exactly the entries that do not match the glob or are not yet stale
survive. -/
lemma mem_clear_cycle (cfg : StreamConfig) (now : Int) (fs : FS)
    (hnd : (fs.map FEntry.name).Nodup) (x : FEntry) :
    x ∈ clear_expired_cache_cycle cfg now fs ↔
      x ∈ fs ∧ ¬(strEndsWith x.name ("." ++ cfg.audio_format) = true ∧
                 now - x.mtime > cfg.cache_duration) := by
  unfold clear_expired_cache_cycle
  rw [mem_fold_erase]
  constructor
  · rintro ⟨hx, hall⟩
    refine ⟨hx, fun hcon => ?_⟩
    exact hall x (List.mem_filter.mpr ⟨hx, hcon.1⟩) hcon.2 rfl
  · rintro ⟨hx, hnot⟩
    refine ⟨hx, fun e he hst hname => ?_⟩
    have hef : e ∈ fs ∧ strEndsWith e.name ("." ++ cfg.audio_format) = true :=
      List.mem_filter.mp he
    have hex : e = x :=
      List.inj_on_of_nodup_map hnd hef.1 hx hname
    subst hex
    exact hnot ⟨hef.2, hst⟩

/-- Claim C8: one janitor cycle deletes exactly the cache files whose age
exceeds the TTL; in particular an entry with `mtime = now - TTL - 1` (age
`TTL + 1`) is removed and an entry with `mtime = now - TTL + 1` (age
`TTL - 1`) survives.  The directory has no duplicate names. -/
theorem janitor_ttl_boundary (cfg : StreamConfig) (now : Int) (fs : FS)
    (hnd : (fs.map FEntry.name).Nodup) (e : FEntry) (hmem : e ∈ fs)
    (hext : strEndsWith e.name ("." ++ cfg.audio_format) = true) :
    (∀ x, x ∈ clear_expired_cache_cycle cfg now fs ↔
        x ∈ fs ∧ ¬(strEndsWith x.name ("." ++ cfg.audio_format) = true ∧
                   now - x.mtime > cfg.cache_duration)) ∧
    (e.mtime = now - cfg.cache_duration - 1 →
        e ∉ clear_expired_cache_cycle cfg now fs) ∧
    (e.mtime = now - cfg.cache_duration + 1 →
        e ∈ clear_expired_cache_cycle cfg now fs) := by
  refine ⟨fun x => mem_clear_cycle cfg now fs hnd x, fun hm => ?_, fun hm => ?_⟩
  · intro hin
    have h := (mem_clear_cycle cfg now fs hnd e).mp hin
    exact h.2 ⟨hext, by omega⟩
  · exact (mem_clear_cycle cfg now fs hnd e).mpr
      ⟨hmem, fun hcon => by omega⟩

/-- Witness for `janitor_ttl_boundary`: a two-file directory at the exact
boundary ages. -/
theorem janitor_ttl_boundary_witness :
    ⟨"/tmp/audio_cache/a.mp3", 5, 78399⟩ ∉
      clear_expired_cache_cycle {} 100000
        [⟨"/tmp/audio_cache/a.mp3", 5, 78399⟩, ⟨"/tmp/audio_cache/b.mp3", 5, 78401⟩] ∧
    ⟨"/tmp/audio_cache/b.mp3", 5, 78401⟩ ∈
      clear_expired_cache_cycle {} 100000
        [⟨"/tmp/audio_cache/a.mp3", 5, 78399⟩, ⟨"/tmp/audio_cache/b.mp3", 5, 78401⟩] := by
  constructor
  · exact (janitor_ttl_boundary {} 100000
      [⟨"/tmp/audio_cache/a.mp3", 5, 78399⟩, ⟨"/tmp/audio_cache/b.mp3", 5, 78401⟩]
      (by decide) ⟨"/tmp/audio_cache/a.mp3", 5, 78399⟩ (by decide) (by decide)).2.1
      (by decide)
  · exact (janitor_ttl_boundary {} 100000
      [⟨"/tmp/audio_cache/a.mp3", 5, 78399⟩, ⟨"/tmp/audio_cache/b.mp3", 5, 78401⟩]
      (by decide) ⟨"/tmp/audio_cache/b.mp3", 5, 78401⟩ (by decide) (by decide)).2.2
      (by decide)

/-- Claim C2: when the cache file exists with age strictly below the TTL,
`ensure_audio_file` returns its path at once — the filesystem is untouched
and the trace shows no lock acquisition, no provider invocation, and no
download strategy; when the file is absent or at least TTL old, the call
takes the download path (acquires the per-identifier lock and attempts the
first download strategy). -/
theorem cache_hit_fast_path (cfg : StreamConfig) (env : EnsureEnv) (now : Int)
    (input : String) (fs : FS) (hmk : env.mkdirOk = true) :
    (cacheFresh fs (_audio_path cfg.cache_dir cfg.audio_format
        (extract_video_id input)) now cfg.cache_duration = true →
      ensure_audio_file cfg env now input fs =
        ⟨some (_audio_path cfg.cache_dir cfg.audio_format
          (extract_video_id input)), fs, [Ev.cacheHit]⟩) ∧
    (cacheFresh fs (_audio_path cfg.cache_dir cfg.audio_format
        (extract_video_id input)) now cfg.cache_duration = false →
      Ev.lockAcquired ∈ (ensure_audio_file cfg env now input fs).evs ∧
      Ev.strategy "proxy-stream" ∈ (ensure_audio_file cfg env now input fs).evs) := by
  constructor
  · intro h
    simp only [ensure_audio_file, hmk, Bool.not_true, Bool.false_eq_true,
      if_false, h, if_true]
  · intro h
    simp only [ensure_audio_file, hmk, Bool.not_true, Bool.false_eq_true,
      if_false, h, if_true]
    split_ifs <;> simp

/-- Witness for `cache_hit_fast_path`: a fresh cache file is served without
lock or strategies; an empty cache takes the download path. -/
theorem cache_hit_fast_path_witness :
    ensure_audio_file {} { mkdirOk := true } 1000 "dQw4w9WgXcQ"
        [⟨"/tmp/audio_cache/dQw4w9WgXcQ.mp3", 5, 990⟩] =
      ⟨some "/tmp/audio_cache/dQw4w9WgXcQ.mp3",
       [⟨"/tmp/audio_cache/dQw4w9WgXcQ.mp3", 5, 990⟩], [Ev.cacheHit]⟩ ∧
    Ev.lockAcquired ∈ (ensure_audio_file {} { mkdirOk := true } 1000
        "dQw4w9WgXcQ" []).evs := by
  constructor
  · exact (cache_hit_fast_path {} { mkdirOk := true } 1000 "dQw4w9WgXcQ"
      [⟨"/tmp/audio_cache/dQw4w9WgXcQ.mp3", 5, 990⟩] rfl).1 (by decide)
  · exact ((cache_hit_fast_path {} { mkdirOk := true } 1000 "dQw4w9WgXcQ"
      [] rfl).2 (by decide)).1

/-- The environment of the claim C7 failing run: the Piped adapter resolves a
stream URL, but the body download dies after `open(target, 'wb')` truncated
the target (the `errLeaving 0` outcome of
`with urllib.request.urlopen(...): with open(target,'wb') as f:
f.write(resp.read())`); every later strategy fails outright. -/
def c7Env : EnsureEnv :=
  { mkdirOk := true, pipedRes := some (some "http://u"), pipedWrite := .errLeaving 0 }

/-- Claim C7 names a code bug: when every acquisition strategy fails, the
failure is signalled and the lock trace is balanced (those conjuncts hold),
but the strategies write to the final path directly, so a download aborted
mid-body leaves a zero-byte file at the target — and a subsequent call even
serves that empty file as a fresh cache hit. -/
theorem failed_download_leaves_file_at_target :
    (ensure_audio_file {} c7Env 1000 "dQw4w9WgXcQ" []).res = none ∧
    fsLookup (ensure_audio_file {} c7Env 1000 "dQw4w9WgXcQ" []).fs
        "/tmp/audio_cache/dQw4w9WgXcQ.mp3" =
      some ⟨"/tmp/audio_cache/dQw4w9WgXcQ.mp3", 0, 1000⟩ ∧
    ((ensure_audio_file {} c7Env 1000 "dQw4w9WgXcQ" []).evs.count Ev.lockAcquired =
     (ensure_audio_file {} c7Env 1000 "dQw4w9WgXcQ" []).evs.count Ev.lockReleased) ∧
    (ensure_audio_file {} { mkdirOk := true } 1001 "dQw4w9WgXcQ"
        (ensure_audio_file {} c7Env 1000 "dQw4w9WgXcQ" []).fs).res =
      some "/tmp/audio_cache/dQw4w9WgXcQ.mp3" := by
  refine ⟨by decide, by decide, by decide, by decide⟩

lemma proxy_stream_count_ev (env : EnsureEnv) (now : Int) (t : String)
    (fs : FS) (x : Ev) (hx : ∀ n, x ≠ Ev.provider n) :
    ((_download_via_proxy_stream env now t fs).2.2).count x = 0 := by
  simp only [_download_via_proxy_stream]
  split_ifs <;> simp [List.count_cons, hx _]

lemma api_count_ev (env : EnsureEnv) (now : Int) (t : String)
    (fs : FS) (x : Ev) (hx : ∀ n, x ≠ Ev.provider n) :
    ((_download_via_api env now t fs).2.2).count x = 0 := by
  simp only [_download_via_api]
  split_ifs <;> simp [List.count_cons, hx _]

/-- Every exit path of `ensure_audio_file` releases the lock it acquired:
the event trace is lock-balanced for every environment (the part of claim C7
the code does satisfy, mirroring `async with`). -/
theorem ensure_lock_balanced (cfg : StreamConfig) (env : EnsureEnv) (now : Int)
    (input : String) (fs : FS) :
    (ensure_audio_file cfg env now input fs).evs.count Ev.lockAcquired =
      (ensure_audio_file cfg env now input fs).evs.count Ev.lockReleased := by
  have hp1 : ((_download_via_proxy_stream env now (_audio_path cfg.cache_dir
      cfg.audio_format (extract_video_id input)) fs).2.2).count Ev.lockAcquired = 0 :=
    proxy_stream_count_ev _ _ _ _ _ (fun n h => by cases h)
  have hp2 : ((_download_via_proxy_stream env now (_audio_path cfg.cache_dir
      cfg.audio_format (extract_video_id input)) fs).2.2).count Ev.lockReleased = 0 :=
    proxy_stream_count_ev _ _ _ _ _ (fun n h => by cases h)
  have ha1 : ∀ fs', ((_download_via_api env now (_audio_path cfg.cache_dir
      cfg.audio_format (extract_video_id input)) fs').2.2).count Ev.lockAcquired = 0 :=
    fun fs' => api_count_ev _ _ _ _ _ (fun n h => by cases h)
  have ha2 : ∀ fs', ((_download_via_api env now (_audio_path cfg.cache_dir
      cfg.audio_format (extract_video_id input)) fs').2.2).count Ev.lockReleased = 0 :=
    fun fs' => api_count_ev _ _ _ _ _ (fun n h => by cases h)
  simp only [ensure_audio_file]
  split_ifs <;>
    simp [List.count_append, List.count_cons, hp1, hp2, ha1, ha2]

/-! ### The acquisition-strategy sequence of `ensure_audio_file` -/

lemma downloadCheck_success (w : NetWrite) (now : Int) (t : String) (fs : FS) :
    (downloadCheck w now t fs).1 = true →
    existsNonEmpty (downloadCheck w now t fs).2 t = true := by
  cases w <;> simp [downloadCheck]

lemma tryStreamSource_success (res : Option (Option String)) (w : NetWrite)
    (now : Int) (t : String) (fs : FS) :
    (tryStreamSource res w now t fs).1 = true →
    existsNonEmpty (tryStreamSource res w now t fs).2 t = true := by
  rcases res with _ | u
  · simp [tryStreamSource]
  · simp only [tryStreamSource]
    by_cases ht : truthyStr u = true
    · rw [if_pos ht]; exact downloadCheck_success w now t fs
    · rw [if_neg ht]; simp

lemma proxy_stream_success_nonempty (env : EnsureEnv) (now : Int) (t : String)
    (fs : FS) :
    (_download_via_proxy_stream env now t fs).1 = true →
    existsNonEmpty (_download_via_proxy_stream env now t fs).2.1 t = true := by
  simp only [_download_via_proxy_stream]
  by_cases h1 : (tryStreamSource env.pipedRes env.pipedWrite now t fs).1 = true
  · rw [if_pos h1]; intro _; exact tryStreamSource_success _ _ _ _ _ h1
  · rw [if_neg h1]; exact tryStreamSource_success _ _ _ _ _

lemma api_success_nonempty (env : EnsureEnv) (now : Int) (t : String)
    (fs : FS) :
    (_download_via_api env now t fs).1 = true →
    existsNonEmpty (_download_via_api env now t fs).2.1 t = true := by
  simp only [_download_via_api]
  by_cases h1 : (downloadCheck env.y2 now t fs).1 = true
  · rw [if_pos h1]; intro _; exact downloadCheck_success _ _ _ _ h1
  · rw [if_neg h1]; exact downloadCheck_success _ _ _ _

lemma strategyNames_proxy (env : EnsureEnv) (now : Int) (t : String) (fs : FS) :
    strategyNames (_download_via_proxy_stream env now t fs).2.2 = [] := by
  simp only [_download_via_proxy_stream]
  split_ifs <;> rfl

lemma strategyNames_api (env : EnsureEnv) (now : Int) (t : String) (fs : FS) :
    strategyNames (_download_via_api env now t fs).2.2 = [] := by
  simp only [_download_via_api]
  split_ifs <;> rfl

lemma ytdlp_success_rcZero (cfg : StreamConfig) (ytd : YtdlpEnv) (now : Int)
    (vid : String) (fs : FS) :
    (_download_via_ytdlp_enhanced cfg ytd now vid fs).1 = true →
    ytd.rcZero = true := by
  simp only [_download_via_ytdlp_enhanced]
  intro h
  by_cases hrc : ytd.rcZero = true
  · exact hrc
  · exfalso
    rw [show (!ytd.rcZero) = true by simp [Bool.eq_false_iff.mpr hrc]] at h
    simp at h

lemma ytdlp_success_spec (cfg : StreamConfig) (ytd : YtdlpEnv) (now : Int)
    (vid : String) (fs : FS) :
    (_download_via_ytdlp_enhanced cfg ytd now vid fs).1 = true →
    ytd.rcZero = true ∧
    globId (ytd.created.foldl
        (fun f c => fsWrite f (_audio_path cfg.cache_dir c.1 vid) c.2 now) fs)
      cfg.cache_dir vid ≠ [] := by
  simp only [_download_via_ytdlp_enhanced]
  intro h
  by_cases hrc : ytd.rcZero = true
  · refine ⟨hrc, fun hg => ?_⟩
    rw [hrc] at h
    simp only [Bool.not_true, Bool.false_eq_true, if_false] at h
    rw [hg] at h
    simp at h
  · exfalso
    rw [show (!ytd.rcZero) = true by simp [Bool.eq_false_iff.mpr hrc]] at h
    simp at h

/-- Claim C6 amended: on a cache miss `ensure_audio_file` attempts exactly
the fixed strategy sequence (a) proxy-stream copy, (b) scraping-API
download, (c) yt-dlp extraction, in that order, stopping at the first that
reports success and returning the target path iff one does; strategies
(a) and (b) succeed exactly when they leave a non-empty file at the target
path, but strategy (c) succeeds exactly when the tool exits zero and some
`{video_id}.*` file exists in the cache directory — which need not be a
non-empty file at the target path (see
`download_sequence_counterexample`). -/
theorem download_strategy_sequence (cfg : StreamConfig) (env : EnsureEnv)
    (now : Int) (input : String) (fs : FS) (hmk : env.mkdirOk = true)
    (hmiss : cacheFresh fs (_audio_path cfg.cache_dir cfg.audio_format
      (extract_video_id input)) now cfg.cache_duration = false) :
    let tgt := _audio_path cfg.cache_dir cfg.audio_format (extract_video_id input)
    let s1 := _download_via_proxy_stream env now tgt fs
    let s2 := _download_via_api env now tgt s1.2.1
    let s3 := _download_via_ytdlp_enhanced cfg env.ytd now (extract_video_id input) s2.2.1
    let out := ensure_audio_file cfg env now input fs
    (strategyNames out.evs =
      if s1.1 then ["proxy-stream"]
      else if s2.1 then ["proxy-stream", "api"]
      else ["proxy-stream", "api", "ytdlp-enhanced"]) ∧
    (out.res = if s1.1 || s2.1 || s3.1 then some tgt else none) ∧
    (out.fs = if s1.1 then s1.2.1 else if s2.1 then s2.2.1 else s3.2) ∧
    (s1.1 = true → existsNonEmpty s1.2.1 tgt = true) ∧
    (s1.1 = false → s2.1 = true → existsNonEmpty s2.2.1 tgt = true) ∧
    (s1.1 = false → s2.1 = false → s3.1 = true →
      env.ytd.rcZero = true ∧
      globId (env.ytd.created.foldl
          (fun f c => fsWrite f
            (_audio_path cfg.cache_dir c.1 (extract_video_id input)) c.2 now)
          s2.2.1)
        cfg.cache_dir (extract_video_id input) ≠ []) := by
  intro tgt s1 s2 s3 out
  have hout : out = ensure_audio_file cfg env now input fs := rfl
  simp only [ensure_audio_file, hmk, Bool.not_true, Bool.false_eq_true, if_false,
    hmiss, if_true] at hout
  by_cases h1 : s1.1 = true
  · rw [if_pos h1] at hout
    refine ⟨?_, ?_, ?_, fun _ => proxy_stream_success_nonempty env now tgt fs h1,
      fun hf _ => absurd h1 (by simp [hf]), fun hf _ _ => absurd h1 (by simp [hf])⟩
    · rw [hout]
      have e1 := strategyNames_proxy env now tgt fs
      simp only [strategyNames] at e1
      simp [strategyNames, h1, List.filterMap_append, e1]
    · rw [hout]; simp [h1]
    · rw [hout]; simp [h1]
  · rw [if_neg h1] at hout
    have h1f : s1.1 = false := Bool.eq_false_iff.mpr h1
    by_cases h2 : s2.1 = true
    · rw [if_pos h2] at hout
      refine ⟨?_, ?_, ?_, fun ht => absurd ht h1, fun _ _ =>
        api_success_nonempty env now tgt s1.2.1 h2,
        fun _ hf _ => absurd h2 (by simp [hf])⟩
      · rw [hout]
        have e1 := strategyNames_proxy env now tgt fs
        have e2 := strategyNames_api env now tgt s1.2.1
        simp only [strategyNames] at e1 e2
        simp [strategyNames, h1f, h2, List.filterMap_append, e1, e2]
      · rw [hout]; simp [h1f, h2]
      · rw [hout]; simp [h1f, h2]
    · rw [if_neg h2] at hout
      have h2f : s2.1 = false := Bool.eq_false_iff.mpr h2
      by_cases h3 : s3.1 = true
      · rw [if_pos h3] at hout
        refine ⟨?_, ?_, ?_, fun ht => absurd ht h1, fun _ ht => absurd ht h2,
          fun _ _ _ => ytdlp_success_spec cfg env.ytd now
            (extract_video_id input) s2.2.1 h3⟩
        · rw [hout]
          have e1 := strategyNames_proxy env now tgt fs
          have e2 := strategyNames_api env now tgt s1.2.1
          simp only [strategyNames] at e1 e2
          simp [strategyNames, h1f, h2f, List.filterMap_append, e1, e2]
        · rw [hout]; simp [h1f, h2f, h3]
        · rw [hout]; simp [h1f, h2f]
      · rw [if_neg h3] at hout
        have h3f : s3.1 = false := Bool.eq_false_iff.mpr h3
        refine ⟨?_, ?_, ?_, fun ht => absurd ht h1, fun _ ht => absurd ht h2,
          fun _ _ ht => absurd ht h3⟩
        · rw [hout]
          have e1 := strategyNames_proxy env now tgt fs
          have e2 := strategyNames_api env now tgt s1.2.1
          simp only [strategyNames] at e1 e2
          simp [strategyNames, h1f, h2f, List.filterMap_append, e1, e2]
        · rw [hout]; simp [h1f, h2f, h3f]
        · rw [hout]; simp [h1f, h2f]

/-- Environment of the `download_strategy_sequence` witness: the
proxy-stream strategy finds no stream, the y2mate download writes 7 bytes. -/
def c6WitEnv : EnsureEnv := { mkdirOk := true, y2 := .wrote 7 }

/-- Witness for `download_strategy_sequence`: with strategy (a) failing and
the scraping API succeeding, exactly the strategies (a) and (b) run and the
target path is returned. -/
theorem download_strategy_sequence_witness :
    strategyNames (ensure_audio_file {} c6WitEnv 1000 "dQw4w9WgXcQ" []).evs
      = ["proxy-stream", "api"] ∧
    (ensure_audio_file {} c6WitEnv 1000 "dQw4w9WgXcQ" []).res
      = some "/tmp/audio_cache/dQw4w9WgXcQ.mp3" := by
  have h := download_strategy_sequence {} c6WitEnv 1000 "dQw4w9WgXcQ" [] rfl
    (by decide)
  exact ⟨h.1.trans (by decide), h.2.1.trans (by decide)⟩

/-- Environment refuting claim C6's stopping criterion, scenario 1: the
Piped download aborts after truncating the target to zero bytes, every
other fetch fails, and the yt-dlp tool exits zero having created nothing —
its glob then finds only the zero-byte leftover target. -/
def c6CounterEnv1 : EnsureEnv :=
  { mkdirOk := true, pipedRes := some (some "http://u"),
    pipedWrite := .errLeaving 0,
    ytd := { rcZero := true, created := [], renameOk := true } }

/-- Environment refuting claim C6's stopping criterion, scenario 2: all
downloads fail, the yt-dlp tool exits zero having written `{id}.m4a`, and
the extension-normalizing rename fails (the code catches the error and
still reports success), so no file exists at the target path at all. -/
def c6CounterEnv2 : EnsureEnv :=
  { mkdirOk := true,
    ytd := { rcZero := true, created := [("m4a", 5)], renameOk := false } }

/-- Claim C6, as stated, is false: the winning strategy need not produce a
non-empty file at the target path.  In scenario 1 strategy (c) wins and the
call returns the target path while the file at the target is empty; in
scenario 2 strategy (c) wins and the call returns the target path while no
file exists at the target at all. -/
theorem download_sequence_counterexample :
    (ensure_audio_file {} c6CounterEnv1 1000 "dQw4w9WgXcQ" []).res =
      some "/tmp/audio_cache/dQw4w9WgXcQ.mp3" ∧
    fsLookup (ensure_audio_file {} c6CounterEnv1 1000 "dQw4w9WgXcQ" []).fs
        "/tmp/audio_cache/dQw4w9WgXcQ.mp3" =
      some ⟨"/tmp/audio_cache/dQw4w9WgXcQ.mp3", 0, 1000⟩ ∧
    existsNonEmpty (ensure_audio_file {} c6CounterEnv1 1000 "dQw4w9WgXcQ" []).fs
        "/tmp/audio_cache/dQw4w9WgXcQ.mp3" = false ∧
    (ensure_audio_file {} c6CounterEnv2 1000 "dQw4w9WgXcQ" []).res =
      some "/tmp/audio_cache/dQw4w9WgXcQ.mp3" ∧
    fsLookup (ensure_audio_file {} c6CounterEnv2 1000 "dQw4w9WgXcQ" []).fs
        "/tmp/audio_cache/dQw4w9WgXcQ.mp3" = none := by
  refine ⟨by decide, by decide, by decide, by decide, by decide⟩

/-! ### Stream-selector lemmas -/

lemma sorted_head_key_min {α : Type} (k : α → Int) (l : List α)
    (hl : List.Pairwise (fun a b => k a ≤ k b) l) (x : α)
    (hx : l.head? = some x) : ∀ y ∈ l, k x ≤ k y := by
  cases l with
  | nil => cases hx
  | cons a t =>
    simp only [List.head?_cons, Option.some.injEq] at hx
    subst hx
    intro y hy
    rcases List.mem_cons.mp hy with rfl | h
    · exact le_refl _
    · exact (List.pairwise_cons.mp hl).1 y h

lemma sorted_getLast_key_max {α : Type} (k : α → Int) (l : List α)
    (hl : List.Pairwise (fun a b => k a ≤ k b) l) (x : α)
    (hx : l.getLast? = some x) : ∀ y ∈ l, k y ≤ k x := by
  induction l with
  | nil => cases hx
  | cons a t ih =>
    cases t with
    | nil =>
      simp only [List.getLast?_singleton, Option.some.injEq] at hx
      subst hx
      intro y hy
      rcases List.mem_cons.mp hy with rfl | h
      · exact le_refl _
      · cases h
    | cons b t' =>
      rw [List.getLast?_cons_cons] at hx
      have hxm : x ∈ b :: t' := List.mem_of_mem_getLast? hx
      intro y hy
      rcases List.mem_cons.mp hy with rfl | h
      · exact (List.pairwise_cons.mp hl).1 x hxm
      · exact ih (List.pairwise_cons.mp hl).2 hx y h

/-- Python's `min(l, key=g)` over a list that is ascending in a second key
`k`: the result is a first minimizer of `g`, hence among `g`-minimizers it
has the least `k`. -/
lemma pyMin_sorted_spec {α : Type} (g : α → Nat) (k : α → Int) :
    ∀ (xs : List α) (x : α),
      List.Pairwise (fun a b => k a ≤ k b) (x :: xs) →
      ∃ r, pyMin g (x :: xs) = some r ∧ r ∈ x :: xs ∧
        (∀ z ∈ x :: xs, g r ≤ g z) ∧
        (∀ z ∈ x :: xs, g z = g r → k r ≤ k z) := by
  intro xs
  induction xs with
  | nil =>
    intro x _
    exact ⟨x, rfl, List.mem_singleton_self x,
      by intro z hz; rcases List.mem_singleton.mp hz with rfl; exact le_refl _,
      by intro z hz _; rcases List.mem_singleton.mp hz with rfl; exact le_refl _⟩
  | cons y ys ih =>
    intro x hp
    have hx_all : ∀ b ∈ y :: ys, k x ≤ k b := (List.pairwise_cons.mp hp).1
    have hp' : List.Pairwise (fun a b => k a ≤ k b) (y :: ys) :=
      (List.pairwise_cons.mp hp).2
    have hy_all : ∀ b ∈ ys, k y ≤ k b := (List.pairwise_cons.mp hp').1
    have hpys : List.Pairwise (fun a b => k a ≤ k b) ys :=
      (List.pairwise_cons.mp hp').2
    by_cases hlt : g y < g x
    · -- accumulator becomes y
      have hpa : List.Pairwise (fun a b => k a ≤ k b) (y :: ys) := hp'
      obtain ⟨r, hr, hrmem, hrmin, hrtie⟩ := ih y hpa
      have hstep : pyMin g (x :: y :: ys) = pyMin g (y :: ys) := by
        simp [pyMin, List.foldl_cons, hlt]
      refine ⟨r, hstep.trans hr, ?_, ?_, ?_⟩
      · exact List.mem_cons_of_mem x hrmem
      · intro z hz
        rcases List.mem_cons.mp hz with rfl | hz'
        · exact le_of_lt (lt_of_le_of_lt (hrmin y (List.mem_cons_self y ys)) hlt)
        · exact hrmin z hz'
      · intro z hz hgz
        rcases List.mem_cons.mp hz with rfl | hz'
        · exfalso
          have : g r ≤ g y := hrmin y (List.mem_cons_self y ys)
          omega
        · exact hrtie z hz' hgz
    · -- accumulator stays x
      have hpa : List.Pairwise (fun a b => k a ≤ k b) (x :: ys) :=
        List.pairwise_cons.mpr
          ⟨fun b hb => hx_all b (List.mem_cons_of_mem y hb), hpys⟩
      obtain ⟨r, hr, hrmem, hrmin, hrtie⟩ := ih x hpa
      have hstep : pyMin g (x :: y :: ys) = pyMin g (x :: ys) := by
        simp [pyMin, List.foldl_cons, hlt]
      have hxy : g x ≤ g y := le_of_not_lt hlt
      refine ⟨r, hstep.trans hr, ?_, ?_, ?_⟩
      · rcases List.mem_cons.mp hrmem with rfl | hr'
        · exact List.mem_cons_self r (y :: ys)
        · exact List.mem_cons_of_mem x (List.mem_cons_of_mem y hr')
      · intro z hz
        rcases List.mem_cons.mp hz with rfl | hz'
        · exact hrmin z (List.mem_cons_self z ys)
        · rcases List.mem_cons.mp hz' with rfl | hz''
          · exact le_trans (hrmin x (List.mem_cons_self x ys)) hxy
          · exact hrmin z (List.mem_cons_of_mem x hz'')
      · intro z hz hgz
        rcases List.mem_cons.mp hz with rfl | hz'
        · exact hrtie z (List.mem_cons_self z ys) hgz
        · rcases List.mem_cons.mp hz' with rfl | hz''
          · -- z = y, with g y = g r and g x between: x is also a minimizer
            have h1 : g r ≤ g x := hrmin x (List.mem_cons_self x ys)
            have h2 : g x = g r := by omega
            exact le_trans (hrtie x (List.mem_cons_self x ys) h2)
              (hx_all z (List.mem_cons_self z ys))
          · exact hrtie z (List.mem_cons_of_mem x hz'') hgz

lemma select_high_eq (t : Int) (x : Rendition) (xs : List Rendition) :
    _select_stream t (x :: xs) "high" =
      (List.insertionSort brLE (x :: xs)).getLast? := rfl

lemma select_low_eq (t : Int) (x : Rendition) (xs : List Rendition) :
    _select_stream t (x :: xs) "low" =
      (List.insertionSort brLE (x :: xs)).head? := rfl

lemma select_other_eq (t : Int) (x : Rendition) (xs : List Rendition)
    (q : String) (h1 : q ≠ "high") (h2 : q ≠ "low") :
    _select_stream t (x :: xs) q =
      pyMin (fun item => (brKey item - t * 1000).natAbs)
        (List.insertionSort brLE (x :: xs)) := by
  simp only [_select_stream]
  rw [if_neg h1, if_neg h2]

lemma insertionSort_cons_shape (l : List Rendition) (h : l ≠ []) :
    ∃ a t, List.insertionSort brLE l = a :: t := by
  have hperm := List.perm_insertionSort brLE l
  cases hL : List.insertionSort brLE l with
  | nil =>
    rw [hL] at hperm
    exact absurd (hperm.nil_eq).symm h
  | cons a t => exact ⟨a, t, rfl⟩

lemma sorted_pairwise_key (l : List Rendition) :
    List.Pairwise (fun a b => brKey a ≤ brKey b) (List.insertionSort brLE l) :=
  List.sorted_insertionSort brLE l

/-- Claim C4: on the empty rendition list the selector returns `none`; on a
non-empty list, quality `"low"` selects an element of minimal normalized
bitrate, `"high"` one of maximal normalized bitrate, and `"medium"` an
element minimizing the distance of its normalized bitrate to the configured
target (`TARGET_ABR * 1000`), ties in that distance going to the
lower-bitrate candidate. -/
theorem select_stream_quality_spec (target_abr : Int)
    (streams : List Rendition) (hne : streams ≠ []) :
    (∀ q, _select_stream target_abr [] q = none) ∧
    (∃ rl, _select_stream target_abr streams "low" = some rl ∧ rl ∈ streams ∧
       ∀ y ∈ streams, brKey rl ≤ brKey y) ∧
    (∃ rh, _select_stream target_abr streams "high" = some rh ∧ rh ∈ streams ∧
       ∀ y ∈ streams, brKey y ≤ brKey rh) ∧
    (∃ rm, _select_stream target_abr streams "medium" = some rm ∧ rm ∈ streams ∧
       (∀ y ∈ streams, (brKey rm - target_abr * 1000).natAbs ≤
          (brKey y - target_abr * 1000).natAbs) ∧
       (∀ y ∈ streams, (brKey y - target_abr * 1000).natAbs =
          (brKey rm - target_abr * 1000).natAbs → brKey rm ≤ brKey y)) := by
  obtain ⟨x, xs, rfl⟩ : ∃ x xs, streams = x :: xs := by
    cases streams with
    | nil => exact absurd rfl hne
    | cons x xs => exact ⟨x, xs, rfl⟩
  have hperm := List.perm_insertionSort brLE (x :: xs)
  have hsort := sorted_pairwise_key (x :: xs)
  obtain ⟨a, t, hL⟩ := insertionSort_cons_shape (x :: xs) (by simp)
  refine ⟨fun q => rfl, ?_, ?_, ?_⟩
  · -- low
    refine ⟨a, ?_, ?_, ?_⟩
    · rw [select_low_eq, hL]; rfl
    · exact hperm.mem_iff.mp (by rw [hL]; exact List.mem_cons_self a t)
    · intro y hy
      exact sorted_head_key_min brKey _ hsort a (by rw [hL]; rfl) y
        (hperm.mem_iff.mpr hy)
  · -- high
    have hsome : (List.insertionSort brLE (x :: xs)).getLast?.isSome := by
      rw [hL]; simp
    obtain ⟨rh, hg⟩ := Option.isSome_iff_exists.mp hsome
    refine ⟨rh, ?_, ?_, ?_⟩
    · rw [select_high_eq, hg]
    · exact hperm.mem_iff.mp (List.mem_of_mem_getLast? hg)
    · intro y hy
      exact sorted_getLast_key_max brKey _ hsort rh hg y (hperm.mem_iff.mpr hy)
  · -- medium
    obtain ⟨rm, hr, hrmem, hrmin, hrtie⟩ :=
      pyMin_sorted_spec (fun item => (brKey item - target_abr * 1000).natAbs)
        brKey t a (hL ▸ hsort)
    refine ⟨rm, ?_, ?_, ?_, ?_⟩
    · rw [select_other_eq _ _ _ _ (by decide) (by decide), hL, hr]
    · exact hperm.mem_iff.mp (hL ▸ hrmem)
    · intro y hy
      exact hrmin y (hL ▸ hperm.mem_iff.mpr hy)
    · intro y hy hgy
      exact hrtie y (hL ▸ hperm.mem_iff.mpr hy) hgy

/-- Witness for `select_stream_quality_spec`: the spec's end-to-end bitrate
set `[64000, 128000, 192000]` with target 128. -/
theorem select_stream_quality_spec_witness :
    _select_stream 128 [⟨none, .vint 64000, none, ""⟩,
      ⟨none, .vint 128000, none, ""⟩, ⟨none, .vint 192000, none, ""⟩] "low"
      = some ⟨none, .vint 64000, none, ""⟩ ∧
    _select_stream 128 [⟨none, .vint 64000, none, ""⟩,
      ⟨none, .vint 128000, none, ""⟩, ⟨none, .vint 192000, none, ""⟩] "high"
      = some ⟨none, .vint 192000, none, ""⟩ ∧
    _select_stream 128 [⟨none, .vint 64000, none, ""⟩,
      ⟨none, .vint 128000, none, ""⟩, ⟨none, .vint 192000, none, ""⟩] "medium"
      = some ⟨none, .vint 128000, none, ""⟩ := by
  have h := select_stream_quality_spec 128
    [⟨none, .vint 64000, none, ""⟩, ⟨none, .vint 128000, none, ""⟩,
     ⟨none, .vint 192000, none, ""⟩] (by decide)
  obtain ⟨-, ⟨rl, hl, hlmem, hlmin⟩, ⟨rh, hh, hhmem, hhmax⟩,
    ⟨rm, hm, hmmem, hmmin, -⟩⟩ := h
  refine ⟨?_, ?_, ?_⟩
  · rw [hl]
    congr 1
    have h1 := hlmin _ (by decide : (⟨none, .vint 64000, none, ""⟩ : Rendition) ∈ _)
    simp only [List.mem_cons, List.not_mem_nil, or_false] at hlmem
    rcases hlmem with rfl | rfl | rfl
    · rfl
    · exact absurd h1 (by decide)
    · exact absurd h1 (by decide)
  · rw [hh]
    congr 1
    have h1 := hhmax _ (by decide : (⟨none, .vint 192000, none, ""⟩ : Rendition) ∈ _)
    simp only [List.mem_cons, List.not_mem_nil, or_false] at hhmem
    rcases hhmem with rfl | rfl | rfl
    · exact absurd h1 (by decide)
    · exact absurd h1 (by decide)
    · rfl
  · rw [hm]
    congr 1
    have h1 := hmmin _ (by decide : (⟨none, .vint 128000, none, ""⟩ : Rendition) ∈ _)
    simp only [List.mem_cons, List.not_mem_nil, or_false] at hmmem
    rcases hmmem with rfl | rfl | rfl
    · exact absurd h1 (by decide)
    · rfl
    · exact absurd h1 (by decide)

/-- Claim C10: the selector always returns an element of its input (never a
synthesized value), and every quality other than `"high"` and `"low"` —
`"esp32"`, `"medium"`, or anything unrecognized — is handled by the medium
rule: the same result as `"medium"`, a minimizer of the distance to
`TARGET_ABR * 1000`. -/
theorem select_membership_and_default_rule :
    (∀ (t : Int) (l : List Rendition) (q : String), l ≠ [] →
      ∃ r, _select_stream t l q = some r ∧ r ∈ l) ∧
    (∀ (t : Int) (l : List Rendition) (q : String), q ≠ "high" → q ≠ "low" →
      _select_stream t l q = _select_stream t l "medium") ∧
    (∀ (t : Int) (l : List Rendition) (q : String), q ≠ "high" → q ≠ "low" →
      l ≠ [] → ∃ r, _select_stream t l q = some r ∧ r ∈ l ∧
        ∀ y ∈ l, (brKey r - t * 1000).natAbs ≤ (brKey y - t * 1000).natAbs) := by
  have hother : ∀ (t : Int) (x : Rendition) (xs : List Rendition) (q : String),
      q ≠ "high" → q ≠ "low" →
      ∃ r, _select_stream t (x :: xs) q = some r ∧ r ∈ x :: xs ∧
        ∀ y ∈ x :: xs, (brKey r - t * 1000).natAbs ≤ (brKey y - t * 1000).natAbs := by
    intro t x xs q h1 h2
    have hperm := List.perm_insertionSort brLE (x :: xs)
    have hsort := sorted_pairwise_key (x :: xs)
    obtain ⟨a, tl, hL⟩ := insertionSort_cons_shape (x :: xs) (by simp)
    obtain ⟨rm, hr, hrmem, hrmin, -⟩ :=
      pyMin_sorted_spec (fun item => (brKey item - t * 1000).natAbs)
        brKey tl a (hL ▸ hsort)
    refine ⟨rm, ?_, hperm.mem_iff.mp (hL ▸ hrmem), fun y hy =>
      hrmin y (hL ▸ hperm.mem_iff.mpr hy)⟩
    rw [select_other_eq _ _ _ _ h1 h2, hL, hr]
  refine ⟨?_, ?_, ?_⟩
  · intro t l q hne
    obtain ⟨x, xs, rfl⟩ : ∃ x xs, l = x :: xs := by
      cases l with
      | nil => exact absurd rfl hne
      | cons x xs => exact ⟨x, xs, rfl⟩
    have hperm := List.perm_insertionSort brLE (x :: xs)
    obtain ⟨a, tl, hL⟩ := insertionSort_cons_shape (x :: xs) (by simp)
    by_cases hq1 : q = "high"
    · subst hq1
      have hsome : (List.insertionSort brLE (x :: xs)).getLast?.isSome := by
        rw [hL]; simp
      obtain ⟨rh, hg⟩ := Option.isSome_iff_exists.mp hsome
      exact ⟨rh, by rw [select_high_eq, hg],
        hperm.mem_iff.mp (List.mem_of_mem_getLast? hg)⟩
    · by_cases hq2 : q = "low"
      · subst hq2
        refine ⟨a, by rw [select_low_eq, hL]; rfl,
          hperm.mem_iff.mp (by rw [hL]; exact List.mem_cons_self a tl)⟩
      · obtain ⟨r, hr, hrmem, -⟩ := hother t x xs q hq1 hq2
        exact ⟨r, hr, hrmem⟩
  · intro t l q h1 h2
    cases l with
    | nil => rfl
    | cons x xs =>
      rw [select_other_eq _ _ _ _ h1 h2,
        select_other_eq _ _ _ "medium" (by decide) (by decide)]
  · intro t l q h1 h2 hne
    obtain ⟨x, xs, rfl⟩ : ∃ x xs, l = x :: xs := by
      cases l with
      | nil => exact absurd rfl hne
      | cons x xs => exact ⟨x, xs, rfl⟩
    exact hother t x xs q h1 h2

/-- Witness for `select_membership_and_default_rule`: `"esp32"` behaves like
`"medium"` and selects from the input list. -/
theorem select_membership_default_witness :
    _select_stream 128 [⟨none, .vint 64000, none, ""⟩,
      ⟨none, .vint 128000, none, ""⟩] "esp32"
      = _select_stream 128 [⟨none, .vint 64000, none, ""⟩,
        ⟨none, .vint 128000, none, ""⟩] "medium" ∧
    ∃ r, _select_stream 128 [⟨none, .vint 64000, none, ""⟩,
      ⟨none, .vint 128000, none, ""⟩] "esp32" = some r ∧
      r ∈ [(⟨none, .vint 64000, none, ""⟩ : Rendition),
           ⟨none, .vint 128000, none, ""⟩] := by
  constructor
  · exact select_membership_and_default_rule.2.1 128 _ "esp32"
      (by decide) (by decide)
  · exact select_membership_and_default_rule.1 128 _ "esp32" (by decide)

/-! ### Resolver-cascade lemmas -/

lemma fetch_piped_go_fields (resp : String → Option PipedResp) (t : Int)
    (vid q : String) :
    ∀ (l : List String) (r : StreamResult),
      fetch_piped_go resp t vid q l = some r →
      r.source = "piped" ∧ r.video_id = vid := by
  intro l
  induction l with
  | nil => intro r h; cases h
  | cons i rest ih =>
    intro r h
    simp only [fetch_piped_go] at h
    split at h
    · exact ih r h
    · split at h
      · exact ih r h
      · cases h; exact ⟨rfl, rfl⟩

lemma fetch_inv_go_fields (resp : String → Option InvResp) (t : Int)
    (vid q : String) :
    ∀ (l : List String) (r : StreamResult),
      fetch_inv_go resp t vid q l = some r →
      r.source = "invidious" ∧ r.video_id = vid := by
  intro l
  induction l with
  | nil => intro r h; cases h
  | cons i rest ih =>
    intro r h
    simp only [fetch_inv_go] at h
    split at h
    · exact ih r h
    · split at h
      · exact ih r h
      · cases h; exact ⟨rfl, rfl⟩

lemma fetch_ytdlp_fields (env : CascadeEnv) (vid : String) (r : StreamResult) :
    fetch_stream_via_ytdlp env vid = some r →
    r.source = "yt-dlp" ∧ r.video_id = vid := by
  simp only [fetch_stream_via_ytdlp]
  split_ifs with h
  · intro he; cases he; exact ⟨rfl, rfl⟩
  · intro he; cases he

lemma cascadeStep_some (o : Option StreamResult) (r : StreamResult) :
    cascadeStep o = some r → o = some r ∧ truthyStr r.stream_url = true := by
  cases o with
  | none => intro h; cases h
  | some r' =>
    simp only [cascadeStep]
    by_cases ht : truthyStr r'.stream_url = true
    · rw [if_pos ht]; intro h; cases h; exact ⟨rfl, ht⟩
    · rw [if_neg ht]; intro h; cases h

/-- The all-adapters-fail environment named by the claim C3 counterexample:
one configured instance per frontend, every interaction failing. -/
def c3AllFailEnv : CascadeEnv :=
  { pipedInstances := ["https://pipedapi.kavin.rocks"],
    invInstances := ["https://inv.nadeko.net"] }

/-- Claim C3, as stated, is false: the cascade of `get_audio_stream` invokes
`piped`, `invidious` and `yt-dlp` only — it never invokes the scraping-API
adapter that section 4.2's list places third, so even when every adapter
fails, the invocation order is not the spec's four-element priority list. -/
theorem cascade_order_spec_counterexample :
    (get_audio_stream c3AllFailEnv 128 0 "dQw4w9WgXcQ" "esp32").2 =
      ["piped", "invidious", "yt-dlp"] ∧
    (get_audio_stream c3AllFailEnv 128 0 "dQw4w9WgXcQ" "esp32").2 ≠
      spec_section_4_2_order ∧
    "scraping-api" ∉ (get_audio_stream c3AllFailEnv 128 0 "dQw4w9WgXcQ" "esp32").2 ∧
    "scraping-api" ∈ spec_section_4_2_order := by
  refine ⟨by decide, by decide, by decide, by decide⟩

/-- Claim C3 amended: `get_audio_stream` normalizes the identifier and then
invokes the three adapters piped, invidious, yt-dlp in that fixed order (the
scraping-API adapter is not part of this cascade), returning the first
result with a truthy stream URL; a success stops the cascade, the returned
result's `source` field names the adapter that produced it, and every
returned result carries the normalized id and the stamped request fields. -/
theorem cascade_first_success_amended (env : CascadeEnv) (t now : Int)
    (vid q : String) :
    (∀ r, cascadeStep (fetch_stream_via_piped env t (extract_video_id vid) q)
        = some r →
      get_audio_stream env t now vid q =
        (some { r with quality_request := some q, fetched_at := some now },
         ["piped"]) ∧ r.source = "piped") ∧
    (cascadeStep (fetch_stream_via_piped env t (extract_video_id vid) q) = none →
     ∀ r, cascadeStep (fetch_stream_via_invidious env t (extract_video_id vid) q)
        = some r →
      get_audio_stream env t now vid q =
        (some { r with quality_request := some q, fetched_at := some now },
         ["piped", "invidious"]) ∧ r.source = "invidious") ∧
    (cascadeStep (fetch_stream_via_piped env t (extract_video_id vid) q) = none →
     cascadeStep (fetch_stream_via_invidious env t (extract_video_id vid) q) = none →
     ∀ r, cascadeStep (fetch_stream_via_ytdlp env (extract_video_id vid)) = some r →
      get_audio_stream env t now vid q =
        (some { r with quality_request := some q, fetched_at := some now },
         ["piped", "invidious", "yt-dlp"]) ∧ r.source = "yt-dlp") ∧
    (cascadeStep (fetch_stream_via_piped env t (extract_video_id vid) q) = none →
     cascadeStep (fetch_stream_via_invidious env t (extract_video_id vid) q) = none →
     cascadeStep (fetch_stream_via_ytdlp env (extract_video_id vid)) = none →
      get_audio_stream env t now vid q =
        (none, ["piped", "invidious", "yt-dlp"])) ∧
    (∀ r, (get_audio_stream env t now vid q).1 = some r →
      r.video_id = extract_video_id vid ∧ r.quality_request = some q ∧
      r.fetched_at = some now) := by
  refine ⟨?_, ?_, ?_, ?_, ?_⟩
  · intro r h1
    have hf := (cascadeStep_some _ _ h1).1
    have hs := fetch_piped_go_fields env.pipedResp t (extract_video_id vid) q
      env.pipedInstances r hf
    constructor
    · simp only [get_audio_stream, h1]
    · exact hs.1
  · intro h1 r h2
    have hf := (cascadeStep_some _ _ h2).1
    have hs := fetch_inv_go_fields env.invResp t (extract_video_id vid) q
      env.invInstances r hf
    constructor
    · simp only [get_audio_stream, h1, h2]
    · exact hs.1
  · intro h1 h2 r h3
    have hf := (cascadeStep_some _ _ h3).1
    have hs := fetch_ytdlp_fields env (extract_video_id vid) r hf
    constructor
    · simp only [get_audio_stream, h1, h2, h3]
    · exact hs.1
  · intro h1 h2 h3
    simp only [get_audio_stream, h1, h2, h3]
  · intro r hr
    rcases hp : cascadeStep (fetch_stream_via_piped env t (extract_video_id vid) q)
      with _ | r1
    · rcases hi : cascadeStep (fetch_stream_via_invidious env t
          (extract_video_id vid) q) with _ | r2
      · rcases hy : cascadeStep (fetch_stream_via_ytdlp env
            (extract_video_id vid)) with _ | r3
        · simp only [get_audio_stream, hp, hi, hy] at hr; cases hr
        · simp only [get_audio_stream, hp, hi, hy, Option.some.injEq] at hr
          have hs := fetch_ytdlp_fields env (extract_video_id vid) r3
            (cascadeStep_some _ _ hy).1
          subst hr
          exact ⟨hs.2, rfl, rfl⟩
      · simp only [get_audio_stream, hp, hi, Option.some.injEq] at hr
        have hs := fetch_inv_go_fields env.invResp t (extract_video_id vid) q
          env.invInstances r2 (cascadeStep_some _ _ hi).1
        subst hr
        exact ⟨hs.2, rfl, rfl⟩
    · simp only [get_audio_stream, hp, Option.some.injEq] at hr
      have hs := fetch_piped_go_fields env.pipedResp t (extract_video_id vid) q
        env.pipedInstances r1 (cascadeStep_some _ _ hp).1
      subst hr
      exact ⟨hs.2, rfl, rfl⟩

/-- Environment of the `cascade_first_success_amended` witness: Piped has one
instance that fails, Invidious one instance answering with a single audio
rendition. -/
def c3WitEnv : CascadeEnv :=
  { pipedInstances := ["p1"], invInstances := ["i1"],
    invResp := fun _ => some
      { title := some "T", lengthSeconds := some 100,
        adaptiveFormats := [⟨some "http://x", .vstr "128k", none, "audio/mp4"⟩] } }

/-- Witness for `cascade_first_success_amended`: adapter 1 fails, adapter 2
succeeds, the result is tagged `"invidious"` and adapter 3 is never
reached. -/
theorem cascade_first_success_amended_witness :
    get_audio_stream c3WitEnv 128 7 "dQw4w9WgXcQ" "esp32" =
      (some { video_id := "dQw4w9WgXcQ", title := some "T",
              duration := some 100, stream_url := some "http://x",
              bitrate := some 128000, format := some "audio/mp4",
              source := "invidious", inst := some "i1",
              quality_request := some "esp32", fetched_at := some 7 },
       ["piped", "invidious"]) := by
  have h := (cascade_first_success_amended c3WitEnv 128 7 "dQw4w9WgXcQ"
      "esp32").2.1 (by decide)
    { video_id := "dQw4w9WgXcQ", title := some "T", duration := some 100,
      stream_url := some "http://x", bitrate := some 128000,
      format := some "audio/mp4", source := "invidious", inst := some "i1" }
    (by decide)
  exact h.1

/-! ### Normalizer lemmas -/

lemma idChar_not_space (c : Char) (h : isIdChar c = true) : pyIsSpace c = false := by
  by_contra hs
  have hs' : pyIsSpace c = true := by revert hs; cases pyIsSpace c <;> simp
  simp only [pyIsSpace, Bool.or_eq_true, decide_eq_true_eq] at hs'
  rcases hs' with ((((h1 | h2) | h3) | h4) | h5) | h6 <;> subst_vars <;>
    exact absurd h (by decide)

lemma dropWhile_eq_self_of_head (p : Char → Bool) (l : List Char)
    (h : ∀ c, l.head? = some c → p c = false) : l.dropWhile p = l := by
  cases l with
  | nil => rfl
  | cons c cs => simp [List.dropWhile_cons, h c rfl]

lemma pyStrip_eq_self (s : String)
    (hh : ∀ c, s.data.head? = some c → pyIsSpace c = false)
    (hl : ∀ c, s.data.getLast? = some c → pyIsSpace c = false) :
    pyStrip s = s := by
  unfold pyStrip
  rw [dropWhile_eq_self_of_head _ _ hh,
    dropWhile_eq_self_of_head _ _ (fun c hc =>
      hl c ((List.head?_reverse s.data) ▸ hc)),
    List.reverse_reverse]

lemma isCanonical_parts (s : String) (h : isCanonical s = true) :
    s.data.length = 11 ∧ ∀ c ∈ s.data, isIdChar c = true := by
  simp only [isCanonical, Bool.and_eq_true, beq_iff_eq, List.all_eq_true] at h
  exact h

lemma pyStrip_canonical (s : String) (h : isCanonical s = true) :
    pyStrip s = s := by
  obtain ⟨hlen, hall⟩ := isCanonical_parts s h
  refine pyStrip_eq_self s ?_ ?_
  · intro c hc
    exact idChar_not_space c (hall c (List.mem_of_mem_head? hc))
  · intro c hc
    exact idChar_not_space c (hall c (List.mem_of_mem_getLast? hc))

lemma take11Class_canonical (id : String) (h : isCanonical id = true) :
    take11Class id.data = some id.data := by
  obtain ⟨hlen, hall⟩ := isCanonical_parts id h
  simp only [take11Class]
  rw [List.take_of_length_le (le_of_eq hlen)]
  rw [List.all_eq_true.mpr hall, hlen]
  rfl

/-- A literal containing a character outside the id alphabet never matches a
prefix of an all-id-character list. -/
lemma matchLit_none_of_nonid :
    ∀ (lit : List Char) (i : Nat) (hi : i < lit.length),
      isIdChar (lit.get ⟨i, hi⟩) = false →
      ∀ (l : List Char), l.all isIdChar = true → matchLit lit l = none := by
  intro lit
  induction lit with
  | nil => intro i hi; cases hi
  | cons p ps ih =>
    intro i hi hc l hl
    cases l with
    | nil => rfl
    | cons c cs =>
      simp only [matchLit]
      by_cases hpc : p = c
      · rw [if_pos hpc]
        cases i with
        | zero =>
          exfalso
          have : isIdChar c = true :=
            (List.all_eq_true.mp hl) c (List.mem_cons_self c cs)
          rw [List.get] at hc
          rw [hpc] at hc
          rw [this] at hc
          cases hc
        | succ j =>
          have hj : j < ps.length := Nat.lt_of_succ_lt_succ hi
          have hcs : cs.all isIdChar = true := by
            rw [List.all_cons, Bool.and_eq_true] at hl
            exact hl.2
          exact ih j hj (by simpa [List.get] using hc) cs hcs
      · rw [if_neg hpc]

lemma search_none_of_idchars (tryAt : List Char → Option (List Char))
    (hAt : ∀ l, l.all isIdChar = true → tryAt l = none) :
    ∀ l, l.all isIdChar = true → reSearch tryAt l = none := by
  intro l
  induction l with
  | nil => intro h; simpa [reSearch] using hAt [] h
  | cons c cs ih =>
    intro h
    have hcs : cs.all isIdChar = true := by
      rw [List.all_cons, Bool.and_eq_true] at h
      exact h.2
    simp only [reSearch, hAt (c :: cs) h]
    exact ih hcs

lemma tryPat1At_none_of_idchars (l : List Char) (h : l.all isIdChar = true) :
    tryPat1At l = none := by
  simp only [tryPat1At]
  rw [matchLit_none_of_nonid watchLit 7 (by decide) (by decide) l h,
    matchLit_none_of_nonid shortLit 5 (by decide) (by decide) l h]

lemma tryPat2At_none_of_idchars (l : List Char) (h : l.all isIdChar = true) :
    tryPat2At l = none := by
  simp only [tryPat2At]
  rw [matchLit_none_of_nonid embedLit 7 (by decide) (by decide) l h]

lemma tryPat3At_none_of_idchars (l : List Char) (h : l.all isIdChar = true) :
    tryPat3At l = none := by
  simp only [tryPat3At]
  rw [matchLit_none_of_nonid vLit 7 (by decide) (by decide) l h]

lemma reSearch_found (tryAt : List Char → Option (List Char)) (c : Char)
    (cs : List Char) (r : List Char) (h : tryAt (c :: cs) = some r) :
    reSearch tryAt (c :: cs) = some r := by
  simp only [reSearch, h]

/-! Search results on the four accepted URL shapes.  The scans over the
concrete URL prefixes reduce definitionally (every position before the
capture fails on a concrete character), so each lemma is a definitional skip
to the matching position combined with `take11Class_canonical`; pattern
failures continue into the identifier region via
`search_none_of_idchars`. -/

lemma search1_watch (id : String) (h : isCanonical id = true) :
    reSearch tryPat1At ("https://youtube.com/watch?v=".data ++ id.data) =
      some id.data := by
  have hpos : tryPat1At ('y' :: ("outube.com/watch?v=".data ++ id.data)) =
      some id.data := by
    have e : tryPat1At ('y' :: ("outube.com/watch?v=".data ++ id.data)) =
        take11Class id.data := rfl
    rw [e, take11Class_canonical id h]
  exact (show reSearch tryPat1At ("https://youtube.com/watch?v=".data ++ id.data)
      = reSearch tryPat1At ('y' :: ("outube.com/watch?v=".data ++ id.data))
    from rfl).trans (reSearch_found _ _ _ _ hpos)

lemma search1_short (id : String) (h : isCanonical id = true) :
    reSearch tryPat1At ("https://youtu.be/".data ++ id.data) = some id.data := by
  have hpos : tryPat1At ('y' :: ("outu.be/".data ++ id.data)) = some id.data := by
    have e : tryPat1At ('y' :: ("outu.be/".data ++ id.data)) =
        take11Class id.data := rfl
    rw [e, take11Class_canonical id h]
  exact (show reSearch tryPat1At ("https://youtu.be/".data ++ id.data)
      = reSearch tryPat1At ('y' :: ("outu.be/".data ++ id.data))
    from rfl).trans (reSearch_found _ _ _ _ hpos)

lemma search1_embed_none (id : String) (hall : id.data.all isIdChar = true) :
    reSearch tryPat1At ("https://youtube.com/embed/".data ++ id.data) = none :=
  (show reSearch tryPat1At ("https://youtube.com/embed/".data ++ id.data)
      = reSearch tryPat1At id.data from rfl).trans
    (search_none_of_idchars _ tryPat1At_none_of_idchars id.data hall)

lemma search2_embed (id : String) (h : isCanonical id = true) :
    reSearch tryPat2At ("https://youtube.com/embed/".data ++ id.data) =
      some id.data := by
  have hpos : tryPat2At ('y' :: ("outube.com/embed/".data ++ id.data)) =
      some id.data := by
    have e : tryPat2At ('y' :: ("outube.com/embed/".data ++ id.data)) =
        take11Class id.data := rfl
    rw [e, take11Class_canonical id h]
  exact (show reSearch tryPat2At ("https://youtube.com/embed/".data ++ id.data)
      = reSearch tryPat2At ('y' :: ("outube.com/embed/".data ++ id.data))
    from rfl).trans (reSearch_found _ _ _ _ hpos)

lemma search1_v_none (id : String) (hall : id.data.all isIdChar = true) :
    reSearch tryPat1At ("https://youtube.com/v/".data ++ id.data) = none :=
  (show reSearch tryPat1At ("https://youtube.com/v/".data ++ id.data)
      = reSearch tryPat1At id.data from rfl).trans
    (search_none_of_idchars _ tryPat1At_none_of_idchars id.data hall)

lemma search2_v_none (id : String) (hall : id.data.all isIdChar = true) :
    reSearch tryPat2At ("https://youtube.com/v/".data ++ id.data) = none :=
  (show reSearch tryPat2At ("https://youtube.com/v/".data ++ id.data)
      = reSearch tryPat2At id.data from rfl).trans
    (search_none_of_idchars _ tryPat2At_none_of_idchars id.data hall)

lemma search3_v (id : String) (h : isCanonical id = true) :
    reSearch tryPat3At ("https://youtube.com/v/".data ++ id.data) =
      some id.data := by
  have hpos : tryPat3At ('y' :: ("outube.com/v/".data ++ id.data)) =
      some id.data := by
    have e : tryPat3At ('y' :: ("outube.com/v/".data ++ id.data)) =
        take11Class id.data := rfl
    rw [e, take11Class_canonical id h]
  exact (show reSearch tryPat3At ("https://youtube.com/v/".data ++ id.data)
      = reSearch tryPat3At ('y' :: ("outube.com/v/".data ++ id.data))
    from rfl).trans (reSearch_found _ _ _ _ hpos)

lemma extract_unfolded (value : String) (hne : value ≠ "") :
    extract_video_id value =
      (if isCanonical (pyStrip value) then pyStrip value
       else
        match reSearch tryPat1At (pyStrip value).data with
        | some r => ⟨r⟩
        | none =>
          match reSearch tryPat2At (pyStrip value).data with
          | some r => ⟨r⟩
          | none =>
            match reSearch tryPat3At (pyStrip value).data with
            | some r => ⟨r⟩
            | none => strTakeRight 11 (pyStrip value)) := by
  unfold extract_video_id
  rw [if_neg hne]

/-- Claim C5, as stated, is false in its fallback clause: the code strips
whitespace before taking the last eleven characters, so for the input
`" abc"` (not canonical, matching no URL pattern) it returns `"abc"`, not
the last eleven characters `" abc"` of the input. -/
theorem extract_fallback_counterexample :
    isCanonical " abc" = false ∧
    isCanonical (pyStrip " abc") = false ∧
    reSearch tryPat1At (pyStrip " abc").data = none ∧
    reSearch tryPat2At (pyStrip " abc").data = none ∧
    reSearch tryPat3At (pyStrip " abc").data = none ∧
    extract_video_id " abc" = "abc" ∧
    strTakeRight 11 " abc" = " abc" ∧
    extract_video_id " abc" ≠ strTakeRight 11 " abc" := by
  refine ⟨by decide, by decide, by decide, by decide, by decide, by decide,
    by decide, by decide⟩

/-- Claim C5 amended: `extract_video_id` is total by construction and
(i) returns canonical-shaped inputs unchanged, (ii) returns the captured
eleven-character id for each accepted URL shape (watch-query, short-link,
embed, and `/v/` forms), and (iii) for every input that, after whitespace
stripping, is neither canonical nor matched by any pattern, returns the last
eleven characters of the *stripped* input. -/
theorem extract_video_id_amended :
    (∀ s, isCanonical s = true → extract_video_id s = s) ∧
    (∀ id, isCanonical id = true →
      extract_video_id (watchUrl id) = id ∧ extract_video_id (shortUrl id) = id ∧
      extract_video_id (embedUrl id) = id ∧ extract_video_id (vUrl id) = id) ∧
    (∀ s, isCanonical (pyStrip s) = false →
      reSearch tryPat1At (pyStrip s).data = none →
      reSearch tryPat2At (pyStrip s).data = none →
      reSearch tryPat3At (pyStrip s).data = none →
      extract_video_id s = strTakeRight 11 (pyStrip s)) := by
  refine ⟨?_, ?_, ?_⟩
  · -- canonical inputs pass through
    intro s h
    have hne : s ≠ "" := by
      intro he; rw [he] at h; exact absurd h (by decide)
    unfold extract_video_id
    rw [if_neg hne]
    simp only [pyStrip_canonical s h, h, if_true]
  · -- URL shapes
    intro id h
    obtain ⟨hlen, hall⟩ := isCanonical_parts id h
    have hallb : id.data.all isIdChar = true := List.all_eq_true.mpr hall
    have hne_id : id.data ≠ [] := by
      intro he; rw [he] at hlen; cases hlen
    -- shared facts, instantiated per shape through `pre`
    have hmain : ∀ (pre : String), pre.data ≠ [] →
        (∀ c, pre.data.head? = some c → pyIsSpace c = false) →
        pyStrip ⟨pre.data ++ id.data⟩ = ⟨pre.data ++ id.data⟩ := by
      intro pre hpre hprehead
      apply pyStrip_eq_self
      · intro c hc
        cases hd : pre.data with
        | nil => exact absurd hd hpre
        | cons a t =>
          refine hprehead c ?_
          rw [hd]
          rw [show (String.mk (pre.data ++ id.data)).data =
              pre.data ++ id.data from rfl, hd] at hc
          simpa using hc
      · intro c hc
        rw [show (String.mk (pre.data ++ id.data)).data =
            pre.data ++ id.data from rfl,
          List.getLast?_append_of_ne_nil _ hne_id] at hc
        exact idChar_not_space c (hall c (List.mem_of_mem_getLast? hc))
    have hcanon : ∀ (pre : String), pre.data ≠ [] →
        isCanonical ⟨pre.data ++ id.data⟩ = false := by
      intro pre hpre
      have hplen : 0 < pre.data.length := List.length_pos.mpr hpre
      have hlen' : (String.mk (pre.data ++ id.data)).data.length =
          pre.data.length + 11 := by
        rw [show (String.mk (pre.data ++ id.data)).data =
            pre.data ++ id.data from rfl, List.length_append, hlen]
      simp only [isCanonical, hlen']
      have h1 : (pre.data.length + 11 == 11) = false :=
        beq_eq_false_iff_ne.mpr (by omega)
      rw [h1, Bool.false_and]
    refine ⟨?_, ?_, ?_, ?_⟩
    · -- watch-query form
      have hd : watchUrl id = ⟨"https://youtube.com/watch?v=".data ++ id.data⟩ := rfl
      have hne : watchUrl id ≠ "" := by
        intro he
        have := congrArg String.data he
        rw [hd] at this
        cases this
      rw [extract_unfolded _ hne, hd,
        hmain "https://youtube.com/watch?v=" (by decide) (by decide),
        hcanon "https://youtube.com/watch?v=" (by decide)]
      rw [if_neg Bool.false_ne_true]
      rw [show (String.mk ("https://youtube.com/watch?v=".data ++ id.data)).data
          = "https://youtube.com/watch?v=".data ++ id.data from rfl]
      rw [search1_watch id h]
    · -- short-link form
      have hd : shortUrl id = ⟨"https://youtu.be/".data ++ id.data⟩ := rfl
      have hne : shortUrl id ≠ "" := by
        intro he
        have := congrArg String.data he
        rw [hd] at this
        cases this
      rw [extract_unfolded _ hne, hd,
        hmain "https://youtu.be/" (by decide) (by decide),
        hcanon "https://youtu.be/" (by decide)]
      rw [if_neg Bool.false_ne_true]
      rw [show (String.mk ("https://youtu.be/".data ++ id.data)).data
          = "https://youtu.be/".data ++ id.data from rfl]
      rw [search1_short id h]
    · -- embed form
      have hd : embedUrl id = ⟨"https://youtube.com/embed/".data ++ id.data⟩ := rfl
      have hne : embedUrl id ≠ "" := by
        intro he
        have := congrArg String.data he
        rw [hd] at this
        cases this
      rw [extract_unfolded _ hne, hd,
        hmain "https://youtube.com/embed/" (by decide) (by decide),
        hcanon "https://youtube.com/embed/" (by decide)]
      rw [if_neg Bool.false_ne_true]
      rw [show (String.mk ("https://youtube.com/embed/".data ++ id.data)).data
          = "https://youtube.com/embed/".data ++ id.data from rfl]
      rw [search1_embed_none id hallb, search2_embed id h]
    · -- /v/ form
      have hd : vUrl id = ⟨"https://youtube.com/v/".data ++ id.data⟩ := rfl
      have hne : vUrl id ≠ "" := by
        intro he
        have := congrArg String.data he
        rw [hd] at this
        cases this
      rw [extract_unfolded _ hne, hd,
        hmain "https://youtube.com/v/" (by decide) (by decide),
        hcanon "https://youtube.com/v/" (by decide)]
      rw [if_neg Bool.false_ne_true]
      rw [show (String.mk ("https://youtube.com/v/".data ++ id.data)).data
          = "https://youtube.com/v/".data ++ id.data from rfl]
      rw [search1_v_none id hallb, search2_v_none id hallb, search3_v id h]
  · -- fallback
    intro s hcan h1 h2 h3
    by_cases hse : s = ""
    · subst hse; rfl
    · unfold extract_video_id
      rw [if_neg hse]
      simp only [hcan, Bool.false_eq_true, if_false, h1, h2, h3]

/-- Witness for `extract_video_id_amended` at concrete inputs. -/
theorem extract_video_id_amended_witness :
    extract_video_id "dQw4w9WgXcQ" = "dQw4w9WgXcQ" ∧
    extract_video_id (watchUrl "dQw4w9WgXcQ") = "dQw4w9WgXcQ" ∧
    extract_video_id (shortUrl "dQw4w9WgXcQ") = "dQw4w9WgXcQ" ∧
    extract_video_id (embedUrl "dQw4w9WgXcQ") = "dQw4w9WgXcQ" ∧
    extract_video_id (vUrl "dQw4w9WgXcQ") = "dQw4w9WgXcQ" ∧
    extract_video_id "hello world!" = strTakeRight 11 (pyStrip "hello world!") := by
  have h2 := extract_video_id_amended.2.1 "dQw4w9WgXcQ" (by decide)
  exact ⟨extract_video_id_amended.1 "dQw4w9WgXcQ" (by decide),
    h2.1, h2.2.1, h2.2.2.1, h2.2.2.2,
    extract_video_id_amended.2.2 "hello world!" (by decide) (by decide)
      (by decide) (by decide)⟩

/-! ### The locking invariant -/

/-- A caller holds the per-identifier lock while in its critical section or
downloading. -/
def InLock (c : Caller) : Prop :=
  c.phase = Phase.critical ∨ c.phase = Phase.downloading

/-- Completed downloads recorded by the cache (one file at most). -/
def cacheCount : Option Nat → Nat
  | some _ => 1
  | none => 0

/-- Downloads in flight for one caller. -/
def dlCount : Phase → Nat
  | Phase.downloading => 1
  | _ => 0

/-- The inductive invariant of the two-caller system: the lock flag tracks
exactly the callers in their locked region, at most one caller is there, a
cache mtime never lies in the future, downloads are in flight only while the
cache file is absent, the download counter equals completed-plus-in-flight
downloads, a finished caller implies a cache file exists, and every finished
caller returned the target path. -/
def Inv (tgt : String) (s : CState) : Prop :=
  (s.lockHeld = true ↔ (InLock s.ca ∨ InLock s.cb)) ∧
  ¬(InLock s.ca ∧ InLock s.cb) ∧
  (∀ m, s.cache = some m → m ≤ s.now) ∧
  (s.ca.phase = Phase.downloading → s.cache = none) ∧
  (s.cb.phase = Phase.downloading → s.cache = none) ∧
  (s.dls = cacheCount s.cache + dlCount s.ca.phase + dlCount s.cb.phase) ∧
  ((s.ca.phase = Phase.finished ∨ s.cb.phase = Phase.finished) →
    s.cache.isSome = true) ∧
  (s.ca.phase = Phase.finished → s.ca.res = some tgt) ∧
  (s.cb.phase = Phase.finished → s.cb.res = some tgt)

def swapS (s : CState) : CState :=
  { s with ca := s.cb, cb := s.ca }

lemma doStep_false_swap (ttl : Nat) (tgt : String) (s : CState) :
    doStep ttl tgt s false = swapS (doStep ttl tgt (swapS s) true) := rfl

lemma Inv_swap (tgt : String) (s : CState) (h : Inv tgt s) : Inv tgt (swapS s) := by
  obtain ⟨h1, h2, h3, h4, h5, h6, h7, h8, h9⟩ := h
  exact ⟨h1.trans or_comm, fun hc => h2 ⟨hc.2, hc.1⟩, h3, h5, h4,
    h6.trans (Nat.add_right_comm _ _ _), fun hf => h7 hf.symm, h9, h8⟩

lemma not_InLock_of_phase (c : Caller) (p : Phase) (hp : c.phase = p)
    (hc : p ≠ Phase.critical) (hd : p ≠ Phase.downloading) : ¬InLock c := by
  intro h
  rcases h with e | e
  · exact hc (hp.symm.trans e)
  · exact hd (hp.symm.trans e)

/-- Preservation: one step of caller A keeps the invariant, provided the
clock has not yet reached the TTL (cache writes are then always fresh, which
rules out the stale-redownload branch). -/
lemma Inv_preserved_true (ttl : Nat) (tgt : String) (s : CState)
    (hinv : Inv tgt s) (hclk : s.now < ttl) :
    Inv tgt (doStep ttl tgt s true) := by
  obtain ⟨h1, h2, h3, h4, h5, h6, h7, h8, h9⟩ := hinv
  have hfresh_of_some : ∀ m, s.cache = some m →
      modelFresh ttl s.cache s.now = true := by
    intro m hm
    have := h3 m hm
    simp only [modelFresh, hm, decide_eq_true_eq]
    omega
  cases hph : s.ca.phase with
  | entry =>
    have hA_old : ¬InLock s.ca :=
      not_InLock_of_phase s.ca _ hph (by decide) (by decide)
    by_cases hf : modelFresh ttl s.cache s.now = true
    · -- pre-lock cache hit: finish immediately
      have hsome : s.cache.isSome = true := by
        cases hc : s.cache with
        | none => rw [hc] at hf; simp [modelFresh] at hf
        | some m => rfl
      have hnew : doStep ttl tgt s true =
          { cache := s.cache, lockHeld := s.lockHeld,
            ca := ⟨Phase.finished, some tgt⟩, cb := s.cb,
            now := s.now + 1, dls := s.dls } := by
        simp [doStep, stepOne, hph, hf]
      rw [hnew]
      rw [hph] at h6
      have hA_new : ¬InLock (⟨Phase.finished, some tgt⟩ : Caller) :=
        not_InLock_of_phase _ Phase.finished rfl (by decide) (by decide)
      refine ⟨?_, ?_, ?_, ?_, ?_, ?_, ?_, ?_, ?_⟩
      · constructor
        · intro hl
          rcases h1.mp hl with hA | hB
          · exact absurd hA hA_old
          · exact Or.inr hB
        · intro hOr
          rcases hOr with hA | hB
          · exact absurd hA hA_new
          · exact h1.mpr (Or.inr hB)
      · exact fun hc => hA_new hc.1
      · exact fun m hm => le_trans (h3 m hm) (Nat.le_succ _)
      · exact fun hd => nomatch hd
      · exact h5
      · exact h6
      · exact fun _ => hsome
      · exact fun _ => rfl
      · exact h9
    · have hff : modelFresh ttl s.cache s.now = false := Bool.eq_false_iff.mpr hf
      by_cases hl : s.lockHeld = true
      · -- lock busy: move to the waiting queue
        have hnew : doStep ttl tgt s true =
            { cache := s.cache, lockHeld := s.lockHeld,
              ca := ⟨Phase.waiting, s.ca.res⟩, cb := s.cb,
              now := s.now + 1, dls := s.dls } := by
          simp [doStep, stepOne, hph, hff, hl]
        rw [hnew]
        rw [hph] at h6
        have hA_new : ¬InLock (⟨Phase.waiting, s.ca.res⟩ : Caller) :=
          not_InLock_of_phase _ Phase.waiting rfl (by decide) (by decide)
        refine ⟨?_, ?_, ?_, ?_, ?_, ?_, ?_, ?_, ?_⟩
        · constructor
          · intro hlk
            rcases h1.mp hlk with hA | hB
            · exact absurd hA hA_old
            · exact Or.inr hB
          · intro hOr
            rcases hOr with hA | hB
            · exact absurd hA hA_new
            · exact h1.mpr (Or.inr hB)
        · exact fun hc => hA_new hc.1
        · exact fun m hm => le_trans (h3 m hm) (Nat.le_succ _)
        · exact fun hd => nomatch hd
        · exact h5
        · exact h6
        · intro hfin
          rcases hfin with hfa | hfb
          · exact nomatch hfa
          · exact h7 (Or.inr hfb)
        · exact fun hfin => nomatch hfin
        · exact h9
      · -- lock free: acquire it and enter the critical section
        have hlf : s.lockHeld = false := Bool.eq_false_iff.mpr hl
        have hB_old : ¬InLock s.cb := by
          intro hB
          have := h1.mpr (Or.inr hB)
          rw [hlf] at this
          cases this
        have hnew : doStep ttl tgt s true =
            { cache := s.cache, lockHeld := true,
              ca := ⟨Phase.critical, s.ca.res⟩, cb := s.cb,
              now := s.now + 1, dls := s.dls } := by
          simp [doStep, stepOne, hph, hff, hlf]
        rw [hnew]
        rw [hph] at h6
        refine ⟨?_, ?_, ?_, ?_, ?_, ?_, ?_, ?_, ?_⟩
        · exact ⟨fun _ => Or.inl (Or.inl rfl), fun _ => rfl⟩
        · exact fun hc => hB_old hc.2
        · exact fun m hm => le_trans (h3 m hm) (Nat.le_succ _)
        · exact fun hd => nomatch hd
        · exact h5
        · exact h6
        · intro hfin
          rcases hfin with hfa | hfb
          · exact nomatch hfa
          · exact h7 (Or.inr hfb)
        · exact fun hfin => nomatch hfin
        · exact h9
  | waiting =>
    have hA_old : ¬InLock s.ca :=
      not_InLock_of_phase s.ca _ hph (by decide) (by decide)
    by_cases hl : s.lockHeld = true
    · -- still waiting
      have hnew : doStep ttl tgt s true =
          { cache := s.cache, lockHeld := s.lockHeld, ca := s.ca, cb := s.cb,
            now := s.now + 1, dls := s.dls } := by
        simp [doStep, stepOne, hph, hl]
      rw [hnew]
      exact ⟨h1, h2, fun m hm => le_trans (h3 m hm) (Nat.le_succ _), h4, h5,
        h6, h7, h8, h9⟩
    · -- lock released meanwhile: acquire it
      have hlf : s.lockHeld = false := Bool.eq_false_iff.mpr hl
      have hB_old : ¬InLock s.cb := by
        intro hB
        have := h1.mpr (Or.inr hB)
        rw [hlf] at this
        cases this
      have hnew : doStep ttl tgt s true =
          { cache := s.cache, lockHeld := true,
            ca := ⟨Phase.critical, s.ca.res⟩, cb := s.cb,
            now := s.now + 1, dls := s.dls } := by
        simp [doStep, stepOne, hph, hlf]
      rw [hnew]
      rw [hph] at h6
      refine ⟨?_, ?_, ?_, ?_, ?_, ?_, ?_, ?_, ?_⟩
      · exact ⟨fun _ => Or.inl (Or.inl rfl), fun _ => rfl⟩
      · exact fun hc => hB_old hc.2
      · exact fun m hm => le_trans (h3 m hm) (Nat.le_succ _)
      · exact fun hd => nomatch hd
      · exact h5
      · exact h6
      · intro hfin
        rcases hfin with hfa | hfb
        · exact nomatch hfa
        · exact h7 (Or.inr hfb)
      · exact fun hfin => nomatch hfin
      · exact h9
  | critical =>
    have hB_old : ¬InLock s.cb := fun hB => h2 ⟨Or.inl hph, hB⟩
    by_cases hf : modelFresh ttl s.cache s.now = true
    · -- double-checked hit: another caller completed the download while this
      -- caller waited; release the lock and return the path
      have hsome : s.cache.isSome = true := by
        cases hc : s.cache with
        | none => rw [hc] at hf; simp [modelFresh] at hf
        | some m => rfl
      have hnew : doStep ttl tgt s true =
          { cache := s.cache, lockHeld := false,
            ca := ⟨Phase.finished, some tgt⟩, cb := s.cb,
            now := s.now + 1, dls := s.dls } := by
        simp [doStep, stepOne, hph, hf]
      rw [hnew]
      rw [hph] at h6
      have hA_new : ¬InLock (⟨Phase.finished, some tgt⟩ : Caller) :=
        not_InLock_of_phase _ Phase.finished rfl (by decide) (by decide)
      refine ⟨?_, ?_, ?_, ?_, ?_, ?_, ?_, ?_, ?_⟩
      · constructor
        · exact fun hl => nomatch hl
        · intro hOr
          rcases hOr with hA | hB
          · exact absurd hA hA_new
          · exact absurd hB hB_old
      · exact fun hc => hA_new hc.1
      · exact fun m hm => le_trans (h3 m hm) (Nat.le_succ _)
      · exact fun hd => nomatch hd
      · exact h5
      · exact h6
      · exact fun _ => hsome
      · exact fun _ => rfl
      · exact h9
    · -- cache absent (it cannot be stale below the TTL): start the download
      have hcnone : s.cache = none := by
        cases hc : s.cache with
        | none => rfl
        | some m => exact absurd (hfresh_of_some m hc) hf
      have hff : modelFresh ttl s.cache s.now = false := Bool.eq_false_iff.mpr hf
      have hlk : s.lockHeld = true := h1.mpr (Or.inl (Or.inl hph))
      have hnew : doStep ttl tgt s true =
          { cache := s.cache, lockHeld := s.lockHeld,
            ca := ⟨Phase.downloading, s.ca.res⟩, cb := s.cb,
            now := s.now + 1, dls := s.dls + 1 } := by
        simp [doStep, stepOne, hph, hff]
      rw [hnew]
      refine ⟨?_, ?_, ?_, ?_, ?_, ?_, ?_, ?_, ?_⟩
      · exact ⟨fun _ => Or.inl (Or.inr rfl), fun _ => hlk⟩
      · exact fun hc => hB_old hc.2
      · intro m hm
        rw [hcnone] at hm
        cases hm
      · exact fun _ => hcnone
      · exact fun _ => hcnone
      · rw [hph] at h6
        rw [h6]
        simp only [dlCount]
        exact Nat.add_right_comm _ _ _
      · intro hfin
        rcases hfin with hfa | hfb
        · exact nomatch hfa
        · exfalso
          have := h7 (Or.inr hfb)
          rw [hcnone] at this
          cases this
      · exact fun hfin => nomatch hfin
      · exact h9
  | downloading =>
    have hB_old : ¬InLock s.cb := fun hB => h2 ⟨Or.inr hph, hB⟩
    have hcnone : s.cache = none := h4 hph
    have hnew : doStep ttl tgt s true =
        { cache := some s.now, lockHeld := false,
          ca := ⟨Phase.finished, some tgt⟩, cb := s.cb,
          now := s.now + 1, dls := s.dls } := by
      simp [doStep, stepOne, hph]
    rw [hnew]
    have hA_new : ¬InLock (⟨Phase.finished, some tgt⟩ : Caller) :=
      not_InLock_of_phase _ Phase.finished rfl (by decide) (by decide)
    refine ⟨?_, ?_, ?_, ?_, ?_, ?_, ?_, ?_, ?_⟩
    · constructor
      · exact fun hl => nomatch hl
      · intro hOr
        rcases hOr with hA | hB
        · exact absurd hA hA_new
        · exact absurd hB hB_old
    · exact fun hc => hA_new hc.1
    · intro m hm
      cases hm
      exact Nat.le_succ _
    · exact fun hd => nomatch hd
    · intro hB
      exact absurd hB (fun hBdl => hB_old (Or.inr hBdl))
    · rw [hph, hcnone] at h6
      rw [h6]
      simp [dlCount, cacheCount]
    · exact fun _ => rfl
    · exact fun _ => rfl
    · exact h9
  | finished =>
    have hnew : doStep ttl tgt s true =
        { cache := s.cache, lockHeld := s.lockHeld, ca := s.ca, cb := s.cb,
          now := s.now + 1, dls := s.dls } := by
      simp [doStep, stepOne, hph]
    rw [hnew]
    exact ⟨h1, h2, fun m hm => le_trans (h3 m hm) (Nat.le_succ _), h4, h5,
      h6, h7, h8, h9⟩

lemma Inv_preserved (ttl : Nat) (tgt : String) (s : CState) (who : Bool)
    (hinv : Inv tgt s) (hclk : s.now < ttl) :
    Inv tgt (doStep ttl tgt s who) := by
  cases who with
  | true => exact Inv_preserved_true ttl tgt s hinv hclk
  | false =>
    rw [doStep_false_swap]
    exact Inv_swap tgt _ (Inv_preserved_true ttl tgt (swapS s)
      (Inv_swap tgt s hinv) hclk)

lemma doStep_now (ttl : Nat) (tgt : String) (s : CState) (who : Bool) :
    (doStep ttl tgt s who).now = s.now + 1 := by
  cases who <;> rfl

/-- The invariant holds after any schedule that fits below the TTL. -/
lemma runSched_Inv (ttl : Nat) (tgt : String) :
    ∀ (sched : List Bool) (s : CState), Inv tgt s →
      s.now + sched.length ≤ ttl →
      Inv tgt (runSched ttl tgt sched s) := by
  intro sched
  induction sched with
  | nil => intro s hinv _; exact hinv
  | cons w rest ih =>
    intro s hinv hlen
    have hclk : s.now < ttl := by
      simp only [List.length_cons] at hlen
      omega
    have hstep := Inv_preserved ttl tgt s w hinv hclk
    have hnow := doStep_now ttl tgt s w
    exact ih (doStep ttl tgt s w) hstep (by
      rw [hnow]
      simp only [List.length_cons] at hlen
      omega)

lemma initState_Inv (tgt : String) : Inv tgt initState := by
  refine ⟨?_, ?_, ?_, ?_, ?_, ?_, ?_, ?_, ?_⟩ <;>
    simp [initState, InLock, cacheCount, dlCount]

/-- Claim C1: for a never-before-seen identifier and any interleaving of two
concurrent `ensure_audio_file` callers (with download attempts succeeding
and the schedule shorter than the TTL), the per-identifier lock serializes
the downloads — the two callers are never downloading at the same time — and
when both callers have finished, exactly one download ran and both received
the same target path. -/
theorem lock_serialization_single_download (ttl : Nat) (tgt : String)
    (sched : List Bool) (hlen : sched.length ≤ ttl) :
    (∀ k : Nat,
      ¬((runSched ttl tgt (sched.take k) initState).ca.phase = Phase.downloading ∧
        (runSched ttl tgt (sched.take k) initState).cb.phase = Phase.downloading)) ∧
    ((runSched ttl tgt sched initState).ca.phase = Phase.finished →
     (runSched ttl tgt sched initState).cb.phase = Phase.finished →
      (runSched ttl tgt sched initState).dls = 1 ∧
      (runSched ttl tgt sched initState).ca.res = some tgt ∧
      (runSched ttl tgt sched initState).cb.res = some tgt) := by
  constructor
  · intro k hk
    obtain ⟨hda, hdb⟩ := hk
    have hkl : (sched.take k).length ≤ ttl :=
      le_trans (sched.take_sublist k).length_le hlen
    have hinv := runSched_Inv ttl tgt (sched.take k) initState
      (initState_Inv tgt) (by simp only [initState]; omega)
    exact hinv.2.1 ⟨Or.inr hda, Or.inr hdb⟩
  · intro hfa hfb
    have hinv := runSched_Inv ttl tgt sched initState
      (initState_Inv tgt) (by simp only [initState]; omega)
    obtain ⟨h1, h2, h3, h4, h5, h6, h7, h8, h9⟩ := hinv
    have hsome := h7 (Or.inl hfa)
    obtain ⟨m, hm⟩ := Option.isSome_iff_exists.mp hsome
    refine ⟨?_, h8 hfa, h9 hfb⟩
    rw [h6, hfa, hfb, hm]
    simp [cacheCount, dlCount]

/-- Witness for `lock_serialization_single_download`: a six-step schedule in
which caller A enters first, B waits on the lock, A downloads and finishes,
then B re-checks inside the lock and returns the cached path. -/
theorem lock_serialization_single_download_witness :
    (runSched 6 (_audio_path "/tmp/audio_cache" "mp3" "dQw4w9WgXcQ")
        [true, false, true, true, false, false] initState).dls = 1 ∧
    (runSched 6 (_audio_path "/tmp/audio_cache" "mp3" "dQw4w9WgXcQ")
        [true, false, true, true, false, false] initState).ca.res =
      some (_audio_path "/tmp/audio_cache" "mp3" "dQw4w9WgXcQ") ∧
    (runSched 6 (_audio_path "/tmp/audio_cache" "mp3" "dQw4w9WgXcQ")
        [true, false, true, true, false, false] initState).cb.res =
      some (_audio_path "/tmp/audio_cache" "mp3" "dQw4w9WgXcQ") :=
  (lock_serialization_single_download 6
    (_audio_path "/tmp/audio_cache" "mp3" "dQw4w9WgXcQ")
    [true, false, true, true, false, false] (by decide)).2
    (by decide) (by decide)
end StreamProxyVerif

-- sanity examples (concrete evaluations of the embedding)
example : StreamProxyVerif.extract_video_id "dQw4w9WgXcQ" = "dQw4w9WgXcQ" := by decide
example : StreamProxyVerif.extract_video_id
    "https://youtube.com/watch?v=dQw4w9WgXcQ" = "dQw4w9WgXcQ" := by decide
example : StreamProxyVerif.extract_video_id
    "https://youtu.be/dQw4w9WgXcQ" = "dQw4w9WgXcQ" := by decide
example : StreamProxyVerif.extract_video_id
    "https://youtube.com/embed/dQw4w9WgXcQ" = "dQw4w9WgXcQ" := by decide
example : StreamProxyVerif.extract_video_id " abc" = "abc" := by decide
